import Mathlib

/-!
# Limit/Bracket Order Management Engine — verification development

Shallow embedding of the limit/bracket order engine found in
`vali_objects/utils/limit_order/limit_order_manager.py`,
`vali_objects/utils/limit_order/order_processor.py` and
`vali_objects/enums/order_source_enum.py`, together with theorems checking
the natural-language specification of the engine against this embedding.

Prices are modelled as rationals, timestamps as integers, identifiers as
strings.  Stateful code is modelled by explicit state passing over an
`EngineState` record; collaborator calls (the market-order manager, the
position ledger, the live price feed) are modelled by explicit outcome
parameters, mirroring the narrow interfaces the engine consumes.
-/

namespace LimitOrderEngine

/-- Modelled from the spec: order direction, `direction ∈ {LONG, SHORT, FLAT}`
(`vali_objects/enums/order_type_enum.py` is not part of the sources; its
constructors and the `opposite_order_type` helper are reconstructed from the
spec's data model and from the call sites in `limit_order_manager.py`). -/
inductive OrderType where
  | long
  | short
  | flat
deriving DecidableEq, Repr

/-- Modelled from the spec: "reversing direction for BRACKET orders (LONG
becomes SHORT and vice versa)"; the call site raises when the result is not
LONG/SHORT, so FLAT maps to no result. -/
def OrderType.opposite_order_type : OrderType → Option OrderType
  | .long => some .short
  | .short => some .long
  | .flat => none

/-- Modelled from the spec: execution kind,
`execution_kind ∈ {MARKET, LIMIT, BRACKET, CANCEL, EDIT, FLAT_ALL}`
(`vali_objects/enums/execution_type_enum.py` is not part of the sources). -/
inductive ExecutionType where
  | market
  | limit
  | bracket
  | limitCancel
  | limitEdit
  | flatAll
deriving DecidableEq, Repr

/-- `OrderSource` from `vali_objects/enums/order_source_enum.py`. -/
inductive OrderSource where
  | ORGANIC
  | ELIMINATION_FLAT
  | DEPRECATION_FLAT
  | PRICE_FILLED_ELIMINATION_FLAT
  | MAX_ORDERS_PER_POSITION_CLOSE
  | LIMIT_UNFILLED
  | LIMIT_FILLED
  | LIMIT_CANCELLED
  | BRACKET_UNFILLED
  | BRACKET_FILLED
  | BRACKET_CANCELLED
  | FLAT_ALL_CLOSE
  | SUBACCOUNT_PROMOTION
deriving DecidableEq, Repr

/-- `OrderSource.get_fill`. -/
def OrderSource.get_fill : OrderSource → Option OrderSource
  | .LIMIT_UNFILLED => some .LIMIT_FILLED
  | .BRACKET_UNFILLED => some .BRACKET_FILLED
  | .ORGANIC => some .ORGANIC
  | _ => none

/-- `OrderSource.get_cancel`. -/
def OrderSource.get_cancel : OrderSource → Option OrderSource
  | .LIMIT_UNFILLED => some .LIMIT_CANCELLED
  | .LIMIT_FILLED => some .LIMIT_CANCELLED
  | .BRACKET_UNFILLED => some .BRACKET_CANCELLED
  | .BRACKET_FILLED => some .BRACKET_CANCELLED
  | .ORGANIC => some .ORGANIC
  | _ => none

/-- `OrderSource.is_open`. -/
def OrderSource.is_open (src : OrderSource) : Bool :=
  src = OrderSource.LIMIT_UNFILLED || src = OrderSource.BRACKET_UNFILLED

/-- `OrderSource.is_closed`. -/
def OrderSource.is_closed (src : OrderSource) : Bool :=
  src = OrderSource.LIMIT_FILLED || src = OrderSource.LIMIT_CANCELLED ||
  src = OrderSource.BRACKET_FILLED || src = OrderSource.BRACKET_CANCELLED

/-- `OrderSource.is_cancelled`. -/
def OrderSource.is_cancelled (src : OrderSource) : Bool :=
  src = OrderSource.LIMIT_CANCELLED || src = OrderSource.BRACKET_CANCELLED

/-- A price source (quote).  The `PriceSource` class itself is not part of the
sources; the fields are the ones consumed by `limit_order_manager.py`
(`bid`, `ask`, `open`, `close`, `start_ms`). -/
structure PriceSource where
  bid : ℚ
  ask : ℚ
  openPrice : ℚ
  close : ℚ
  start_ms : ℤ
deriving DecidableEq, Repr

/-- One entry of an order's `bracket_orders` list
(see `Order.normalize_bracket_orders` in `vali_objects/vali_dataclasses/order.py`
and `create_sltp_order`). -/
structure BracketSpec where
  stop_loss : Option ℚ
  take_profit : Option ℚ
  leverage : Option ℚ
  value : Option ℚ
  quantity : Option ℚ
deriving DecidableEq, Repr

/-- The order record (`vali_objects/vali_dataclasses/order.py`), restricted to
the fields the limit order engine reads or writes. -/
structure Order where
  order_uuid : String
  trade_pair : String
  order_type : OrderType
  execution_type : ExecutionType
  leverage : Option ℚ
  value : Option ℚ
  quantity : Option ℚ
  limit_price : Option ℚ
  stop_loss : Option ℚ
  take_profit : Option ℚ
  bracket_orders : Option (List BracketSpec)
  src : OrderSource
  processed_ms : ℤ
  price : ℚ
  bid : ℚ
  ask : ℚ
deriving DecidableEq, Repr

/-- An open position, as consumed by the engine: its direction
(`position_type`), net quantity, initial entry price, the uuids of bracket
orders already attached, whether it is an open position and its order count.
The `Position` class is not part of the sources; these fields are the ones
the engine reads. -/
structure Position where
  position_type : OrderType
  net_quantity : ℚ
  initial_entry_price : ℚ
  unfilled_order_uuids : List String
  is_open_position : Bool
  num_orders : Nat
deriving DecidableEq, Repr

/-! ## Trigger evaluator (`_evaluate_limit_trigger_price`,
`_evaluate_bracket_trigger_price`, `_evaluate_trigger_price`) -/

/-- `_evaluate_limit_trigger_price`: `bid_price`/`ask_price` fall back to the
quote's open when non-positive; LONG triggers when effective ask is at most
the limit price, SHORT when effective bid is at least the limit price; the
returned trigger price is always the limit price itself. -/
def evaluateLimitTriggerPrice (order_type : OrderType) (_position : Option Position)
    (ps : PriceSource) (limit_price : ℚ) : Option ℚ :=
  let bid_price := if ps.bid > 0 then ps.bid else ps.openPrice
  let ask_price := if ps.ask > 0 then ps.ask else ps.openPrice
  match order_type with
  | .long => if ask_price ≤ limit_price then some limit_price else none
  | .short => if bid_price ≥ limit_price then some limit_price else none
  | .flat => none

/-- `_evaluate_bracket_trigger_price`: direction comes from the live position;
for a LONG position the stop loss fires on `bid < SL` (checked first) and the
take profit on `bid > TP`; for SHORT, `ask > SL` and `ask < TP`; no position
means no trigger.  Returns the configured bound, not the live quote. -/
def evaluateBracketTriggerPrice (order : Order) (position : Option Position)
    (ps : PriceSource) : Option ℚ :=
  match position with
  | none => none
  | some pos =>
    let bid_price := if ps.bid > 0 then ps.bid else ps.openPrice
    let ask_price := if ps.ask > 0 then ps.ask else ps.openPrice
    match pos.position_type with
    | .long =>
      match order.stop_loss with
      | some sl =>
        if bid_price < sl then some sl
        else
          match order.take_profit with
          | some tp => if bid_price > tp then some tp else none
          | none => none
      | none =>
        match order.take_profit with
        | some tp => if bid_price > tp then some tp else none
        | none => none
    | .short =>
      match order.stop_loss with
      | some sl =>
        if ask_price > sl then some sl
        else
          match order.take_profit with
          | some tp => if ask_price < tp then some tp else none
          | none => none
      | none =>
        match order.take_profit with
        | some tp => if ask_price < tp then some tp else none
        | none => none
    | .flat => none

/-- `_evaluate_trigger_price`: dispatch on the execution type.  The source
also mutates `order.order_type` to the position's type in the bracket branch;
that mutation is applied by the callers that store the order and is modelled
there. -/
def evaluateTriggerPrice (order : Order) (position : Option Position)
    (ps : PriceSource) : Option ℚ :=
  match order.execution_type with
  | .limit =>
    match order.limit_price with
    | some lp => evaluateLimitTriggerPrice order.order_type position ps lp
    | none => none
  | .bracket => evaluateBracketTriggerPrice order position ps
  | _ => none

/-- Spec-side effective ask: the quote's ask, or the fallback (open) price
when the ask is unavailable (non-positive). -/
def effectiveAsk (ps : PriceSource) : ℚ :=
  if ps.ask > 0 then ps.ask else ps.openPrice

/-- Spec-side effective bid: the quote's bid, or the fallback (open) price
when the bid is unavailable (non-positive). -/
def effectiveBid (ps : PriceSource) : ℚ :=
  if ps.bid > 0 then ps.bid else ps.openPrice


/-! ## Median representative quote (`_get_best_price_source`) -/

/-- `_get_best_price_source`: sort the quotes observed in the trailing window
by close price and return a one-element list holding the median (index
`⌊n/2⌋` of the sorted list); `none` when the window is empty. -/
def getBestPriceSource (price_sources : List PriceSource) : Option (List PriceSource) :=
  if price_sources = [] then none
  else
    let sorted_sources := price_sources.mergeSort (fun a b => a.close ≤ b.close)
    let median_index := price_sources.length / 2
    (sorted_sources.get? median_index).map (fun m => [m])

/-- Outcome of the per-instrument head of the sweep loop in
`check_and_fill_limit_orders`: skip when the market is closed, skip when no
representative quote is available, otherwise process with the quote list. -/
inductive InstrumentAction where
  | skippedClosed
  | skippedNoPrice
  | processed (price_sources : List PriceSource)
deriving DecidableEq, Repr

/-- Head of the per-instrument sweep iteration: market-closed check, then the
representative-quote lookup of `_get_best_price_source`. -/
def sweepInstrumentAction (marketOpen : Bool) (window : List PriceSource) :
    InstrumentAction :=
  if ¬ marketOpen then InstrumentAction.skippedClosed
  else
    match getBestPriceSource window with
    | none => InstrumentAction.skippedNoPrice
    | some ps => InstrumentAction.processed ps

/-! ## Engine state

The manager's mutable data for one miner hotkey: the pending-order table
`_limit_orders` (flattened over trade pairs), the recently-closed cache
`_closed_orders`, the per-order disk files, and the `_last_fill_time`
cooldown table.  The nested `{TradePair: {hotkey: [Order]}}` dictionaries are
an index over the same data; orders carry their trade pair, so one flat list
per hotkey is an equivalent view. -/

/-- Disk lifecycle bucket (`"unfilled"` / `"closed"` in
`ValiBkpUtils.get_limit_orders_dir`). -/
inductive Bucket where
  | unfilled
  | closed
deriving DecidableEq, Repr

/-- One on-disk order file, keyed by trade pair, bucket and order uuid. -/
structure DiskEntry where
  trade_pair : String
  bucket : Bucket
  uuid : String
  order : Order
deriving DecidableEq, Repr

/-- Overwrite-or-create the file at `(tp, b, u)` (`ValiBkpUtils.write_file`). -/
def diskWrite (d : List DiskEntry) (tp : String) (b : Bucket) (u : String)
    (o : Order) : List DiskEntry :=
  if d.any (fun e => e.trade_pair == tp && e.bucket == b && e.uuid == u) then
    d.map (fun e =>
      if e.trade_pair == tp && e.bucket == b && e.uuid == u then ⟨tp, b, u, o⟩ else e)
  else d ++ [⟨tp, b, u, o⟩]

/-- Delete the unfilled-bucket file for `(tp, u)` if present (idempotent,
`os.remove` guarded by `os.path.exists` in `_close_limit_order`). -/
def diskRemoveUnfilled (d : List DiskEntry) (tp : String) (u : String) :
    List DiskEntry :=
  d.filter (fun e => !(e.trade_pair == tp && e.bucket == Bucket.unfilled && e.uuid == u))

/-- Engine state for one miner hotkey. -/
structure EngineState where
  pending : List Order
  closedOrders : List Order
  disk : List DiskEntry
  lastFill : List (String × ℤ)
deriving DecidableEq, Repr

/-- `_write_to_disk`: bucket chosen from the order's status (`unfilled` for
`LIMIT_UNFILLED`/`BRACKET_UNFILLED`, else `closed`). -/
def writeToDisk (st : EngineState) (o : Order) : EngineState :=
  let b := if o.src.is_open then Bucket.unfilled else Bucket.closed
  { st with disk := diskWrite st.disk o.trade_pair b o.order_uuid o }

/-- Update `_last_fill_time[trade_pair][hotkey]`. -/
def lastFillUpdate (m : List (String × ℤ)) (tp : String) (t : ℤ) : List (String × ℤ) :=
  if m.any (fun e => e.1 == tp) then m.map (fun e => if e.1 == tp then (tp, t) else e)
  else m ++ [(tp, t)]

/-- Read `_last_fill_time` with the source's default of `0`. -/
def lastFillGet (m : List (String × ℤ)) (tp : String) : ℤ :=
  ((m.find? (fun e => e.1 == tp)).map Prod.snd).getD 0

/-- `_close_limit_order`: ORGANIC (immediately-filled) orders are not stored
anywhere and nothing is cleaned up; otherwise the unfilled disk file is
removed, the order's status and timestamp are updated, the order is written
to disk (now in the closed bucket), removed from the pending list by uuid and
appended to the recently-closed cache.  The position-ledger detach call is an
external collaborator effect. -/
def closeLimitOrder (st : EngineState) (o : Order) (src : OrderSource)
    (time_ms : ℤ) : EngineState :=
  if src = OrderSource.ORGANIC then st
  else
    let o' := { o with src := src, processed_ms := time_ms }
    let d1 := diskRemoveUnfilled st.disk o.trade_pair o.order_uuid
    let b := if o'.src.is_open then Bucket.unfilled else Bucket.closed
    { pending := st.pending.filter (fun p => p.order_uuid != o.order_uuid),
      closedOrders := st.closedOrders ++ [o'],
      disk := diskWrite d1 o.trade_pair b o.order_uuid o',
      lastFill := st.lastFill }

/-- `_validate_sltp_against_price` as a predicate (`true` iff no
`SignalException` is raised). -/
def validateSltpAgainstPrice (order_type : OrderType)
    (stop_loss take_profit : Option ℚ) (reference_price : ℚ) : Bool :=
  match order_type with
  | .long =>
    (match stop_loss with | some sl => decide (sl < reference_price) | none => true) &&
    (match take_profit with | some tp => decide (tp > reference_price) | none => true)
  | .short =>
    (match stop_loss with | some sl => decide (sl > reference_price) | none => true) &&
    (match take_profit with | some tp => decide (tp < reference_price) | none => true)
  | .flat => false

/-- `_validate_bracket_order`: `none` models a `SignalException`; on success
the possibly-updated order is returned (`order_type` forced to the position's
direction, quantity defaulted from the position when no size field is set). -/
def validateBracketOrder (o : Order) (open_position : Option Position)
    (unfilled_orders : List Order) (reference_price : Option ℚ) : Option Order :=
  if open_position = none ∧ unfilled_orders = [] then none
  else if o.stop_loss = none ∧ o.take_profit = none then none
  else
    match open_position with
    | none => some o
    | some p =>
      let o1 := { o with order_type := p.position_type }
      let refOk := match reference_price with
        | none => true
        | some r => validateSltpAgainstPrice o1.order_type o1.stop_loss o1.take_profit r
      if refOk then
        some (if o1.leverage = none ∧ o1.value = none ∧ o1.quantity = none then
                { o1 with quantity := some p.net_quantity }
              else o1)
      else none

/-- `_validate_limit_order` as a predicate (`true` iff no `SignalException`):
positive limit price, non-FLAT direction, and every `bracket_orders` entry has
positive bounds consistent with the limit price. -/
def validateLimitOrder (o : Order) : Bool :=
  match o.limit_price with
  | none => false
  | some lp =>
    if lp ≤ 0 then false
    else if o.order_type = OrderType.flat then false
    else
      match o.bracket_orders with
      | none => true
      | some bs => bs.all (fun b =>
          (match b.stop_loss with | some sl => decide (sl > 0) | none => true) &&
          (match b.take_profit with | some tp => decide (tp > 0) | none => true) &&
          validateSltpAgainstPrice o.order_type b.stop_loss b.take_profit lp)

/-- `_get_unfilled_orders`: pending `LIMIT_UNFILLED` orders of the trade pair,
optionally restricted to those processed strictly before `before_ms`. -/
def getUnfilledOrders (st : EngineState) (tp : String) (before_ms : Option ℤ) :
    List Order :=
  let orders := st.pending.filter
    (fun o => o.trade_pair == tp && o.src == OrderSource.LIMIT_UNFILLED)
  match before_ms with
  | none => orders
  | some b => orders.filter (fun o => decide (o.processed_ms < b))

/-- `_count_unfilled_orders_for_hotkey`. -/
def countUnfilledOrders (st : EngineState) : Nat :=
  (st.pending.filter (fun o => o.src.is_open)).length

/-- Python `str.startswith`, modelled as a character-sequence test. -/
def strStartsWith (s pre : String) : Bool :=
  pre.toList.isPrefixOf s.toList

/-- `_find_orders_to_cancel_by_uuid`: exact match for `LIMIT_UNFILLED` orders,
`startswith` match for `BRACKET_UNFILLED` orders. -/
def findOrdersToCancelByUuid (st : EngineState) (u : String) : List Order :=
  st.pending.filter (fun o =>
    (o.order_uuid == u && o.src == OrderSource.LIMIT_UNFILLED) ||
    (o.src == OrderSource.BRACKET_UNFILLED && strStartsWith o.order_uuid u))

/-- `cancel_limit_order`'s uuid parsing: split the comma-separated argument
and strip each piece; a missing or empty argument yields no uuids. -/
def parseCancelUuids (order_uuid : Option String) : List String :=
  match order_uuid with
  | none => []
  | some s => if s = "" then [] else (s.splitOn ",").map (fun u => u.trim)

/-- `cancel_limit_order`: collect the orders matching each parsed uuid, fail
with `SignalException` when none match (the error result carries no state, so
the caller's state is unchanged), otherwise close each with its cancel
status; the successful result carries the new state and `num_cancelled`. -/
def cancelLimitOrder (st : EngineState) (order_uuid : Option String)
    (now_ms : ℤ) : Except String (EngineState × Nat) :=
  let order_uuids := parseCancelUuids order_uuid
  let orders_to_cancel := (order_uuids.map (fun u => findOrdersToCancelByUuid st u)).flatten
  if orders_to_cancel = [] then
    Except.error "No unfilled limit orders found"
  else
    Except.ok
      (orders_to_cancel.foldl
        (fun s o => closeLimitOrder s o ((OrderSource.get_cancel o.src).getD o.src) now_ms)
        st,
       orders_to_cancel.length)

/-- The Python truthiness-guarded negation
`-order.leverage if order.leverage else None`: absent and zero both map to
absent, a nonzero value is negated. -/
def negIfTruthy : Option ℚ → Option ℚ
  | none => none
  | some x => if x = 0 then none else some (-x)

/-- The order dict handed to the market-order collaborator by
`_fill_limit_order_with_price_source`: for BRACKET execution the direction is
replaced by its opposite and the size fields pass through the
truthiness-guarded negation; `none` models the `ValueError` raised when the
bracket order type has no opposite. -/
def appliedOrderForFill (o : Order) : Option Order :=
  if o.execution_type = ExecutionType.bracket then
    match o.order_type.opposite_order_type with
    | some ct =>
      some { o with
        order_type := ct,
        leverage := negIfTruthy o.leverage,
        value := negIfTruthy o.value,
        quantity := negIfTruthy o.quantity }
    | none => none
  else some o

/-- Outcome of `create_sltp_order`.  `signalError` is a `SignalException`
escaping the method (validation happens before its `try` block),
`bracketError` is a `BracketOrderException`. -/
inductive SynthResult where
  | ok
  | signalError
  | bracketError
deriving DecidableEq, Repr

/-- Decision structure of `create_sltp_order` for a filled parent:
no fill price (Python-falsy, i.e. zero) raises `BracketOrderException`;
a missing or empty `bracket_orders` list raises `SignalException`; an entry
whose bounds fail `_validate_sltp_against_price` against the fill price raises
`SignalException` (this validation sits outside the `try` block); a failure
inside the creation block (lock/disk/attach) is converted to
`BracketOrderException`, modelled by the `externalCreateFails` flag. -/
def createSltpOutcome (parent : Order) (externalCreateFails : Bool) : SynthResult :=
  if parent.price = 0 then SynthResult.bracketError
  else
    match parent.bracket_orders with
    | none => SynthResult.signalError
    | some [] => SynthResult.signalError
    | some bs =>
      if bs.all (fun b =>
          validateSltpAgainstPrice parent.order_type b.stop_loss b.take_profit parent.price) then
        if externalCreateFails then SynthResult.bracketError else SynthResult.ok
      else SynthResult.signalError

/-- The synthesized bracket child of `create_sltp_order`: uuid
`{parent_uuid}-bracket-{i}`, the parent's direction and trade pair, BRACKET
execution, the entry's bounds and sizes, status `BRACKET_UNFILLED`. -/
def mkBracketChild (parent : Order) (i : Nat) (b : BracketSpec) (now_ms : ℤ) : Order :=
  { order_uuid := parent.order_uuid ++ "-bracket-" ++ toString i,
    trade_pair := parent.trade_pair,
    order_type := parent.order_type,
    execution_type := ExecutionType.bracket,
    leverage := b.leverage, value := b.value, quantity := b.quantity,
    limit_price := none, stop_loss := b.stop_loss, take_profit := b.take_profit,
    bracket_orders := none, src := OrderSource.BRACKET_UNFILLED,
    processed_ms := now_ms, price := 0, bid := 0, ask := 0 }

/-- State effect of a successful `create_sltp_order`: each synthesized child is
written to disk and appended to the pending list (position attachment is an
external collaborator effect). -/
def createSltpState (st : EngineState) (parent : Order) (now_ms : ℤ) : EngineState :=
  let children := (parent.bracket_orders.getD []).enum.map
    (fun ib => mkBracketChild parent ib.1 ib.2 now_ms)
  children.foldl
    (fun s c => let s1 := writeToDisk s c; { s1 with pending := s1.pending ++ [c] })
    st

/-- Result of the market-order collaborator
(`MarketOrderManager._process_market_order`): an error message, a missing
updated position, or success with the created fill order and the updated
position. -/
inductive MarketOutcome where
  | err (msg : String)
  | noPosition
  | ok (filled_order : Order) (position : Position)
deriving DecidableEq, Repr

/-- The field copy-back after a successful market fill (`Issue 4` block):
sizes, quote data and timestamp are taken from the created fill order; the
price keeps the trigger price unless it is Python-falsy. -/
def fillUpdatedOrder (o filled : Order) (fill_price : Option ℚ) : Order :=
  { o with
    leverage := filled.leverage,
    value := filled.value,
    quantity := filled.quantity,
    price := match fill_price with
      | some p => if p = 0 then filled.price else p
      | none => filled.price,
    bid := filled.bid,
    ask := filled.ask,
    processed_ms := filled.processed_ms }

/-- Replace the first pending order with the given uuid (the source's
index-scan-and-break loops). -/
def replaceFirstByUuid : List Order → String → Order → List Order
  | [], _, _ => []
  | o :: rest, u, o' =>
    if o.order_uuid = u then o' :: rest else o :: replaceFirstByUuid rest u o'

/-- Remove the first pending order with the given uuid (`orders_list.pop(i)`
after an index-scan-and-break loop). -/
def removeFirstByUuid : List Order → String → List Order
  | [], _ => []
  | o :: rest, u => if o.order_uuid = u then rest else o :: removeFirstByUuid rest u

/-- `_sync_pending_bracket_orders`: re-validate each pending `BRACKET_UNFILLED`
order of the pair against the freshly-created position; skip the ones already
attached, cancel the ones failing validation, persist and re-attach the rest. -/
def syncPendingBracketOrders (st : EngineState) (pos : Position) (tp : String)
    (now_ms : ℤ) : EngineState :=
  let orders_to_sync := st.pending.filter
    (fun o => o.trade_pair == tp && o.src == OrderSource.BRACKET_UNFILLED)
  orders_to_sync.foldl
    (fun s o =>
      if pos.unfilled_order_uuids.contains o.order_uuid then s
      else
        match validateBracketOrder o (some pos) [] (some pos.initial_entry_price) with
        | none => closeLimitOrder s o OrderSource.BRACKET_CANCELLED now_ms
        | some o' =>
          let s1 := writeToDisk s o'
          { s1 with pending := replaceFirstByUuid s1.pending o.order_uuid o' })
    st

/-- Result of `_fill_limit_order_with_price_source`: the returned error
message, the order dict that was handed to the market-order collaborator (if
the call was reached) and the new state. -/
structure FillResult where
  error_msg : Option String
  applied : Option Order
  state : EngineState
deriving Repr

/-- `_fill_limit_order_with_price_source`.  The market-order call and the
creation block of `create_sltp_order` are collaborator effects, supplied as
the `outcome` and `externalCreateFails` parameters; everything else follows
the source: direction reversal for BRACKET execution, the error/no-position
failure paths closing the order with its cancel status, the cooldown update
and bracket synthesis on success, the `BracketOrderException` branch keeping
the fill status, every other exception switching to the cancel status, and
the `finally` block closing the order. -/
def fillLimitOrderWithPriceSource (st : EngineState) (o : Order) (ps : PriceSource)
    (fill_price : Option ℚ) (outcome : MarketOutcome) (externalCreateFails : Bool)
    (now_ms : ℤ) : FillResult :=
  let fill_time := ps.start_ms
  -- call sites guarantee `o.src` is unfilled or ORGANIC, where `get_fill` and
  -- `get_cancel` are defined; `getD` keeps the function total
  let fillSrc := (OrderSource.get_fill o.src).getD o.src
  let cancelSrc := (OrderSource.get_cancel o.src).getD o.src
  match appliedOrderForFill o with
  | none =>
    { error_msg := some "Could not fill limit order",
      applied := none,
      state := closeLimitOrder st o cancelSrc fill_time }
  | some ap =>
    match outcome with
    | .err _ =>
      { error_msg := some "Could not fill limit order",
        applied := some ap,
        state := closeLimitOrder st o cancelSrc fill_time }
    | .noPosition =>
      { error_msg := some "Could not fill limit order",
        applied := some ap,
        state := closeLimitOrder st o cancelSrc fill_time }
    | .ok filled pos =>
      let o' := fillUpdatedOrder o filled fill_price
      let st1 := { st with lastFill := lastFillUpdate st.lastFill o.trade_pair fill_time }
      let st2 :=
        if o.execution_type = ExecutionType.limit ∧ pos.is_open_position ∧ pos.num_orders = 1
        then syncPendingBracketOrders st1 pos o.trade_pair now_ms
        else st1
      if o.execution_type = ExecutionType.limit ∧ o.bracket_orders ≠ none then
        match createSltpOutcome o' externalCreateFails with
        | .ok =>
          { error_msg := none, applied := some ap,
            state := closeLimitOrder (createSltpState st2 o' now_ms) o' fillSrc fill_time }
        | .bracketError =>
          { error_msg := some "bracket order creation failed",
            applied := some ap,
            state := closeLimitOrder st2 o' fillSrc fill_time }
        | .signalError =>
          { error_msg := some "Could not fill limit order",
            applied := some ap,
            state := closeLimitOrder st2 o' cancelSrc fill_time }
      else
        { error_msg := none, applied := some ap,
          state := closeLimitOrder st2 o' fillSrc fill_time }

/-- Result of `_attempt_fill_limit_order`: the boolean the sweep counts as a
fill, the order dict handed to the collaborator (when the fill was reached)
and the new state. -/
structure AttemptResult where
  filled : Bool
  applied : Option Order
  state : EngineState
deriving Repr

/-- `_attempt_fill_limit_order`: under the pair lock, re-verify the order is
still unfilled and recompute the trigger; on confirmation, fill outside the
lock and report `True` regardless of the fill's own outcome.  The bracket
branch of `_evaluate_bracket_trigger_price` sets the order's direction from
the live position before the fill. -/
def attemptFillLimitOrder (st : EngineState) (u : String)
    (price_sources : List PriceSource) (pos : Option Position)
    (outcome : MarketOutcome) (externalCreateFails : Bool) (now_ms : ℤ) :
    AttemptResult :=
  match st.pending.find? (fun o => o.order_uuid == u) with
  | none => { filled := false, applied := none, state := st }
  | some o =>
    if !o.src.is_open then { filled := false, applied := none, state := st }
    else
      match price_sources with
      | [] => { filled := false, applied := none, state := st }
      | best :: _ =>
        match evaluateTriggerPrice o pos best with
        | none => { filled := false, applied := none, state := st }
        | some trigger =>
          let oEval :=
            if o.execution_type = ExecutionType.bracket then
              match pos with
              | some p => { o with order_type := p.position_type }
              | none => o
            else o
          let r := fillLimitOrderWithPriceSource st oEval best (some trigger)
            outcome externalCreateFails now_ms
          { filled := true, applied := r.applied, state := r.state }

/-- What the inner sweep loop does with one pending order. -/
inductive SweepAction where
  | notUnfilled
  | orphanCancelled
  | attempted (filled : Bool)
deriving DecidableEq, Repr

/-- One iteration of the per-order loop in `check_and_fill_limit_orders`:
skip orders that are not unfilled; auto-cancel an orphaned `BRACKET_UNFILLED`
order (no open position and no earlier pending `LIMIT_UNFILLED` order) without
evaluating its trigger; otherwise attempt the fill. -/
def sweepOrderStep (st : EngineState) (o : Order)
    (price_sources : List PriceSource) (pos : Option Position)
    (outcome : MarketOutcome) (externalCreateFails : Bool) (now_ms : ℤ) :
    SweepAction × EngineState :=
  if !o.src.is_open then (SweepAction.notUnfilled, st)
  else if o.src = OrderSource.BRACKET_UNFILLED ∧ pos = none ∧
      getUnfilledOrders st o.trade_pair (some o.processed_ms) = [] then
    (SweepAction.orphanCancelled, closeLimitOrder st o OrderSource.BRACKET_CANCELLED now_ms)
  else
    let r := attemptFillLimitOrder st o.order_uuid price_sources pos outcome
      externalCreateFails now_ms
    (SweepAction.attempted r.filled, r.state)

/-- Per-order collaborator inputs for one sweep pass. -/
structure SweepItem where
  order : Order
  pos : Option Position
  outcome : MarketOutcome
  externalCreateFails : Bool
deriving Repr

/-- The per-(trade pair, hotkey) order loop of `check_and_fill_limit_orders`:
sequentially process the snapshot of pending orders, counting checked orders
and breaking after the first successful attempt; returns
`(checked, filled, state)`. -/
def sweepOrdersLoop (st : EngineState) (items : List SweepItem)
    (price_sources : List PriceSource) (now_ms : ℤ) : Nat × Nat × EngineState :=
  match items with
  | [] => (0, 0, st)
  | it :: rest =>
    let (act, st1) := sweepOrderStep st it.order price_sources it.pos it.outcome
      it.externalCreateFails now_ms
    match act with
    | SweepAction.notUnfilled =>
      sweepOrdersLoop st1 rest price_sources now_ms
    | SweepAction.orphanCancelled =>
      let (c, f, st2) := sweepOrdersLoop st1 rest price_sources now_ms
      (c + 1, f, st2)
    | SweepAction.attempted false =>
      let (c, f, st2) := sweepOrdersLoop st1 rest price_sources now_ms
      (c + 1, f, st2)
    | SweepAction.attempted true => (1, 1, st1)

/-- The per-hotkey head of the sweep: skip every order of the pair while the
cooldown interval since the last fill has not elapsed. -/
def sweepHotkey (st : EngineState) (tp : String) (items : List SweepItem)
    (price_sources : List PriceSource) (now_ms : ℤ) (interval_ms : ℤ) :
    Nat × Nat × EngineState :=
  if now_ms - lastFillGet st.lastFill tp < interval_ms then (0, 0, st)
  else sweepOrdersLoop st items price_sources now_ms

/-- The signal fields `OrderProcessor` reads when building an `Order`. -/
structure SignalInput where
  order_uuid : String
  trade_pair : String
  order_type : OrderType
  leverage : Option ℚ
  value : Option ℚ
  quantity : Option ℚ
  limit_price : Option ℚ
  stop_loss : Option ℚ
  take_profit : Option ℚ
  bracket_orders : Option (List BracketSpec)
  processed_ms : ℤ
deriving Repr

/-- `Order.normalize_bracket_orders` for MARKET/LIMIT execution: top-level
stop loss / take profit are folded into a single `bracket_orders` entry when
no explicit list is given.  (The per-entry size-field validation of the
pydantic model is a submission-time rejection with no engine state effect and
is not needed by the claims.) -/
def normalizeBracketOrders (sig : SignalInput) : Option (List BracketSpec) :=
  match sig.bracket_orders with
  | some bs => some bs
  | none =>
    if sig.stop_loss ≠ none ∨ sig.take_profit ≠ none then
      some [⟨sig.stop_loss, sig.take_profit, sig.leverage, sig.value, sig.quantity⟩]
    else none

/-- `OrderProcessor.process_limit_order`'s order construction: LIMIT
execution, status `LIMIT_UNFILLED`, zero price. -/
def mkLimitOrder (sig : SignalInput) : Order :=
  { order_uuid := sig.order_uuid, trade_pair := sig.trade_pair,
    order_type := sig.order_type, execution_type := ExecutionType.limit,
    leverage := sig.leverage, value := sig.value, quantity := sig.quantity,
    limit_price := sig.limit_price, stop_loss := sig.stop_loss,
    take_profit := sig.take_profit, bracket_orders := normalizeBracketOrders sig,
    src := OrderSource.LIMIT_UNFILLED, processed_ms := sig.processed_ms,
    price := 0, bid := 0, ask := 0 }

/-- `OrderProcessor.process_bracket_order`'s order construction: BRACKET
execution, FLAT placeholder direction (overridden by the manager from the
position), no limit price, status `BRACKET_UNFILLED`. -/
def mkBracketOrder (sig : SignalInput) : Order :=
  { order_uuid := sig.order_uuid, trade_pair := sig.trade_pair,
    order_type := OrderType.flat, execution_type := ExecutionType.bracket,
    leverage := sig.leverage, value := sig.value, quantity := sig.quantity,
    limit_price := none, stop_loss := sig.stop_loss,
    take_profit := sig.take_profit, bracket_orders := sig.bracket_orders,
    src := OrderSource.BRACKET_UNFILLED, processed_ms := sig.processed_ms,
    price := 0, bid := 0, ask := 0 }

/-- Result of `process_limit_order`: success or a raised `SignalException`
message, together with the new state and the order dict handed to the
collaborator when an immediate fill was attempted.  Note that an immediate
fill whose fill call fails raises after its state effects are applied. -/
structure ProcessOutput where
  ok : Bool
  state : EngineState
  applied : Option Order
deriving Repr

/-- `process_limit_order` (manager RPC): under the pair lock, re-check
existence and unfilled status for edits or the pending-order cap for new
orders, validate, and evaluate the trigger against the first sorted price
source when the market is open; an immediately-triggered order is popped from
the pending list when editing, converted to a MARKET/ORGANIC order and filled
outside the lock; otherwise the order is persisted and stored (replacing the
old version for edits). -/
def processLimitOrder (st : EngineState) (sig : SignalInput)
    (execution_type : ExecutionType) (is_edit : Bool) (maxUnfilled : Nat)
    (price_sources : List PriceSource) (marketOpen : Bool)
    (open_position : Option Position) (outcome : MarketOutcome)
    (externalCreateFails : Bool) (now_ms : ℤ) : ProcessOutput :=
  let order0 := if execution_type = ExecutionType.bracket then mkBracketOrder sig
                else mkLimitOrder sig
  let editCheckFails : Bool :=
    is_edit &&
      (match st.pending.find? (fun o => o.order_uuid == sig.order_uuid) with
       | none => true
       | some existing => !existing.src.is_open)
  let capFails : Bool := !is_edit && decide (maxUnfilled ≤ countUnfilledOrders st)
  if editCheckFails || capFails then
    { ok := false, state := st, applied := none }
  else
    let validated : Option Order :=
      if execution_type = ExecutionType.bracket then
        validateBracketOrder order0 open_position
          (getUnfilledOrders st sig.trade_pair none) none
      else if execution_type = ExecutionType.limit then
        if validateLimitOrder order0 then some order0 else none
      else some order0
    match validated with
    | none => { ok := false, state := st, applied := none }
    | some o1 =>
      match price_sources with
      | [] =>
        let st1 := writeToDisk st o1
        let st2 :=
          if is_edit then
            { st1 with pending := replaceFirstByUuid st1.pending sig.order_uuid o1 }
          else { st1 with pending := st1.pending ++ [o1] }
        { ok := true, state := st2, applied := none }
      | ps0 :: _ =>
        match (if marketOpen then evaluateTriggerPrice o1 open_position ps0 else none) with
        | some _ =>
          let stPop :=
            if is_edit then
              { st with pending := removeFirstByUuid st.pending sig.order_uuid }
            else st
          let o2 := { o1 with
            execution_type := ExecutionType.market,
            src := OrderSource.ORGANIC }
          let r := fillLimitOrderWithPriceSource stPop o2 ps0 none outcome
            externalCreateFails now_ms
          { ok := r.error_msg.isNone, state := r.state, applied := r.applied }
        | none =>
          let st1 := writeToDisk st o1
          let st2 :=
            if is_edit then
              { st1 with pending := replaceFirstByUuid st1.pending sig.order_uuid o1 }
            else { st1 with pending := st1.pending ++ [o1] }
          { ok := true, state := st2, applied := none }

/-- `get_limit_order_by_uuid`: first pending order with the uuid and an
unfilled status. -/
def getLimitOrderByUuid (st : EngineState) (u : String) : Option Order :=
  st.pending.find? (fun o => o.order_uuid == u && o.src.is_open)

/-- One engine operation, with the collaborator behaviour it observes.  The
edit operation models `OrderProcessor.process_limit_edit`'s single-order
path: the execution kind is taken from the existing order, so a LIMIT order
is edited as LIMIT and a BRACKET order as BRACKET (the bulk bracket-update
path decomposes into the other operations). -/
inductive EngineOp where
  | submit (sig : SignalInput) (execution_type : ExecutionType) (maxUnfilled : Nat)
      (price_sources : List PriceSource) (marketOpen : Bool)
      (pos : Option Position) (outcome : MarketOutcome)
      (externalCreateFails : Bool) (now_ms : ℤ)
  | edit (sig : SignalInput) (maxUnfilled : Nat)
      (price_sources : List PriceSource) (marketOpen : Bool)
      (pos : Option Position) (outcome : MarketOutcome)
      (externalCreateFails : Bool) (now_ms : ℤ)
  | cancel (order_uuid : Option String) (now_ms : ℤ)
  | sweepOrder (u : String) (price_sources : List PriceSource)
      (pos : Option Position) (outcome : MarketOutcome)
      (externalCreateFails : Bool) (now_ms : ℤ)

/-- One step of the engine: submit, edit, cancel or one sweep-order pass
(trigger re-check, orphan cleanup and fill). -/
def engineStep (st : EngineState) (op : EngineOp) : EngineState :=
  match op with
  | .submit sig et mx ps mo pos outc ext now =>
    (processLimitOrder st sig et false mx ps mo pos outc ext now).state
  | .edit sig mx ps mo pos outc ext now =>
    match getLimitOrderByUuid st sig.order_uuid with
    | none => st
    | some existing =>
      let et := if existing.execution_type = ExecutionType.bracket then
                  ExecutionType.bracket
                else ExecutionType.limit
      (processLimitOrder st sig et true mx ps mo pos outc ext now).state
  | .cancel u now =>
    match cancelLimitOrder st u now with
    | .ok (st', _) => st'
    | .error _ => st
  | .sweepOrder u ps pos outc ext now =>
    match st.pending.find? (fun o => o.order_uuid == u) with
    | none => st
    | some o => (sweepOrderStep st o ps pos outc ext now).2

/-- Spec-side: the order record visible for a uuid — pending entries are
consulted before the recently-closed cache. -/
def findOrderInState (st : EngineState) (u : String) : Option Order :=
  (st.pending ++ st.closedOrders).find? (fun o => o.order_uuid == u)

/-- Spec-side: at most one in-memory record carries the uuid. -/
def uuidUnique (st : EngineState) (u : String) : Prop :=
  ((st.pending ++ st.closedOrders).filter (fun o => o.order_uuid == u)).length ≤ 1

/-- Spec-side: the transitions invariant 4 of the data model allows — a status
stays put, or moves from an unfilled status to the corresponding filled or
cancelled status. -/
def allowedTransition (a b : OrderSource) : Prop :=
  a = b ∨
  (a = OrderSource.LIMIT_UNFILLED ∧
    (b = OrderSource.LIMIT_FILLED ∨ b = OrderSource.LIMIT_CANCELLED)) ∨
  (a = OrderSource.BRACKET_UNFILLED ∧
    (b = OrderSource.BRACKET_FILLED ∨ b = OrderSource.BRACKET_CANCELLED))

/-- Spec-side: the pending-list records carrying a uuid. -/
def pendingRecords (st : EngineState) (u : String) : List Order :=
  st.pending.filter (fun p => p.order_uuid == u)

/-- Spec-side: the recently-closed-cache records carrying a uuid. -/
def closedRecords (st : EngineState) (u : String) : List Order :=
  st.closedOrders.filter (fun p => p.order_uuid == u)

/-- Spec-side: all in-memory records carrying a uuid, pending first. -/
def memRecords (st : EngineState) (u : String) : List Order :=
  pendingRecords st u ++ closedRecords st u

/-- The fold of `_sync_pending_bracket_orders`, generalized over the snapshot
list it iterates (the body is the one of `syncPendingBracketOrders`). -/
def syncFold (pos : Position) (now_ms : ℤ) (L : List Order) (s : EngineState) :
    EngineState :=
  L.foldl
    (fun s o =>
      if pos.unfilled_order_uuids.contains o.order_uuid then s
      else
        match validateBracketOrder o (some pos) [] (some pos.initial_entry_price) with
        | none => closeLimitOrder s o OrderSource.BRACKET_CANCELLED now_ms
        | some o' =>
          let s1 := writeToDisk s o'
          { s1 with pending := replaceFirstByUuid s1.pending o.order_uuid o' })
    s

/-- The fold of `cancel_limit_order`, generalized over the matched-orders
list (the body is the one of `cancelLimitOrder`). -/
def cancelFold (now_ms : ℤ) (K : List Order) (s : EngineState) : EngineState :=
  K.foldl
    (fun s o => closeLimitOrder s o ((OrderSource.get_cancel o.src).getD o.src) now_ms)
    s

/-- Spec-side: how the bracket-sync pass may move one uuid's in-memory records
from state `st` to state `f`: untouched; head of the pending records replaced
by a fresh `BRACKET_UNFILLED` record; or cancelled out of the pending list
into the closed cache as `BRACKET_CANCELLED` records.  The cancelled / replaced
records stem from `BRACKET_UNFILLED` members of the `base` snapshot. -/
def SyncedRecords (base : List Order) (st f : EngineState) (u : String) : Prop :=
  (pendingRecords f u = pendingRecords st u ∧ closedRecords f u = closedRecords st u) ∨
  ((∃ a ∈ base, a.order_uuid = u ∧ a.src = OrderSource.BRACKET_UNFILLED) ∧
   ∃ b, b.src = OrderSource.BRACKET_UNFILLED ∧
     pendingRecords f u =
       (match pendingRecords st u with | [] => [] | _ :: tl => b :: tl) ∧
     closedRecords f u = closedRecords st u) ∨
  (∃ D, D ≠ [] ∧ pendingRecords f u = [] ∧
     closedRecords f u = closedRecords st u ++ D ∧
     ∀ d ∈ D, (∃ a ∈ base, a.order_uuid = u ∧ a.src = OrderSource.BRACKET_UNFILLED) ∧
       d.src = OrderSource.BRACKET_CANCELLED)

/-- Spec-side: how one uuid's records may have evolved between the start of a
fill call and the final close of the filled order: untouched up to appended
synthesized children (`E`), head-replaced by the bracket sync (again up to
appended children), or cancelled into the closed cache by the bracket sync. -/
def PreCloseRecords (st X : EngineState) (u : String) : Prop :=
  (∃ E, pendingRecords X u = pendingRecords st u ++ E ∧
     closedRecords X u = closedRecords st u) ∨
  ((∃ a ∈ st.pending, a.order_uuid = u ∧ a.src = OrderSource.BRACKET_UNFILLED) ∧
   ∃ b E, b.src = OrderSource.BRACKET_UNFILLED ∧
     pendingRecords X u =
       (match pendingRecords st u with | [] => [] | _ :: tl => b :: tl) ++ E ∧
     closedRecords X u = closedRecords st u) ∨
  (∃ D E, D ≠ [] ∧ pendingRecords X u = E ∧
     closedRecords X u = closedRecords st u ++ D ∧
     ∀ d ∈ D, (∃ a ∈ st.pending, a.order_uuid = u ∧ a.src = OrderSource.BRACKET_UNFILLED) ∧
       d.src = OrderSource.BRACKET_CANCELLED)

/-- Spec-side: the record-level outcome of one fill call of the order `o₀`:
for `o₀`'s own uuid, the pending records are emptied and exactly one terminal
record reaching its status through an allowed transition is appended to the
closed cache (possibly after bracket-sync cancellations `D`); for any other
uuid, the records evolve as `PreCloseRecords` allows. -/
def FillRecords (o₀ : Order) (st f : EngineState) (u : String) : Prop :=
  (u = o₀.order_uuid ∧ pendingRecords f u = [] ∧
    ∃ D c, closedRecords f u = (closedRecords st u ++ D) ++ [c] ∧
      allowedTransition o₀.src c.src ∧
      ∀ d ∈ D, (∃ a ∈ st.pending, a.order_uuid = u ∧ a.src = OrderSource.BRACKET_UNFILLED) ∧
        d.src = OrderSource.BRACKET_CANCELLED) ∨
  (u ≠ o₀.order_uuid ∧ PreCloseRecords st f u)

/-- A concrete pending LIMIT order used to exercise the engine-step laws. -/
def sampleLimitOrder : Order :=
  { order_uuid := "A", trade_pair := "P", order_type := OrderType.long,
    execution_type := ExecutionType.limit, leverage := some 1, value := none,
    quantity := none, limit_price := some 10, stop_loss := none,
    take_profit := none, bracket_orders := none,
    src := OrderSource.LIMIT_UNFILLED, processed_ms := 5,
    price := 0, bid := 0, ask := 0 }

/-- A concrete engine state holding only `sampleLimitOrder`. -/
def sampleState : EngineState :=
  { pending := [sampleLimitOrder], closedOrders := [], disk := [], lastFill := [] }

/-- A concrete sweep-order operation whose under-lock re-check confirms the
trigger and whose market call then fails. -/
def sampleSweepOp : EngineOp :=
  EngineOp.sweepOrder "A" [⟨9, 9, 9, 9, 3⟩] none (MarketOutcome.err "no liquidity")
    false 7

/-! ## Theorems -/

/-- C1: for every quote and limit price, the LONG LIMIT trigger fires exactly
when the effective ask is ≤ the limit price and then returns the limit price
itself; the SHORT LIMIT trigger fires exactly when the effective bid is ≥ the
limit price and then returns the limit price itself; any other direction
yields no trigger. -/
theorem limit_trigger_characterization (position : Option Position)
    (ps : PriceSource) (limit_price : ℚ) :
    (evaluateLimitTriggerPrice OrderType.long position ps limit_price =
      if effectiveAsk ps ≤ limit_price then some limit_price else none) ∧
    (evaluateLimitTriggerPrice OrderType.short position ps limit_price =
      if effectiveBid ps ≥ limit_price then some limit_price else none) ∧
    (evaluateLimitTriggerPrice OrderType.flat position ps limit_price = none) := by
  refine ⟨?_, ?_, rfl⟩ <;>
    simp only [evaluateLimitTriggerPrice, effectiveAsk, effectiveBid]

/-- C2: bracket trigger evaluation against a live position.  With no position
there is no trigger.  For a LONG position the stop loss fires exactly on
`bid < SL` and is checked first (its configured value is returned even when
the take profit bound also holds), the take profit fires on `bid > TP`; for a
SHORT position symmetrically with the ask and reversed inequalities. -/
theorem bracket_trigger_characterization (o : Order) (pos : Position) (ps : PriceSource) :
    (evaluateBracketTriggerPrice o none ps = none) ∧
    (pos.position_type = OrderType.long →
      (∀ sl, o.stop_loss = some sl → effectiveBid ps < sl →
        evaluateBracketTriggerPrice o (some pos) ps = some sl) ∧
      (∀ tp, o.take_profit = some tp → effectiveBid ps > tp →
        (∀ sl, o.stop_loss = some sl → ¬ effectiveBid ps < sl) →
        evaluateBracketTriggerPrice o (some pos) ps = some tp) ∧
      ((evaluateBracketTriggerPrice o (some pos) ps).isSome ↔
        (∃ sl, o.stop_loss = some sl ∧ effectiveBid ps < sl) ∨
        (∃ tp, o.take_profit = some tp ∧ effectiveBid ps > tp))) ∧
    (pos.position_type = OrderType.short →
      (∀ sl, o.stop_loss = some sl → effectiveAsk ps > sl →
        evaluateBracketTriggerPrice o (some pos) ps = some sl) ∧
      (∀ tp, o.take_profit = some tp → effectiveAsk ps < tp →
        (∀ sl, o.stop_loss = some sl → ¬ effectiveAsk ps > sl) →
        evaluateBracketTriggerPrice o (some pos) ps = some tp) ∧
      ((evaluateBracketTriggerPrice o (some pos) ps).isSome ↔
        (∃ sl, o.stop_loss = some sl ∧ effectiveAsk ps > sl) ∨
        (∃ tp, o.take_profit = some tp ∧ effectiveAsk ps < tp))) := by
  refine ⟨rfl, fun hty => ?_, fun hty => ?_⟩ <;>
  · simp only [evaluateBracketTriggerPrice, hty, effectiveBid, effectiveAsk] at *
    rcases hsl : o.stop_loss with _ | sl <;> rcases htp : o.take_profit with _ | tp <;>
      refine ⟨?_, ?_, ?_⟩ <;>
      simp_all only [Option.some.injEq, forall_eq, reduceCtorEq, IsEmpty.forall_iff,
        implies_true, forall_const, Option.isSome_none, Option.isSome_some,
        Bool.false_eq_true, false_iff, true_iff, not_exists, not_or, exists_eq_left,
        false_or, or_false, exists_false] <;>
      split_ifs <;>
      simp_all [le_of_not_lt, not_lt, not_le]

/-- C2 witness: a LONG position with stop loss 48000 and take profit 52000;
a quote with effective bid 47999 trips the stop loss branch and the evaluation
returns exactly the configured stop loss. -/
theorem bracket_trigger_characterization_witness :
    evaluateBracketTriggerPrice
      { order_uuid := "b1", trade_pair := "BTCUSD", order_type := OrderType.long,
        execution_type := ExecutionType.bracket, leverage := none, value := none,
        quantity := some 1, limit_price := none, stop_loss := some 48000,
        take_profit := some 52000, bracket_orders := none,
        src := OrderSource.BRACKET_UNFILLED, processed_ms := 0, price := 0,
        bid := 0, ask := 0 }
      (some { position_type := OrderType.long, net_quantity := 1,
              initial_entry_price := 50000, unfilled_order_uuids := [],
              is_open_position := true, num_orders := 1 })
      { bid := 47999, ask := 48001, openPrice := 48000, close := 48000, start_ms := 0 }
      = some 48000 :=
  ((bracket_trigger_characterization _
      { position_type := OrderType.long, net_quantity := 1,
        initial_entry_price := 50000, unfilled_order_uuids := [],
        is_open_position := true, num_orders := 1 } _).2.1 rfl).1
    48000 rfl (by norm_num [effectiveBid])
/-- C7: for a non-empty trailing window the representative quote is the element
at index `⌊n/2⌋` of a close-sorted permutation of the window (the upper median
for an even count); an empty window yields no quote and the instrument is
skipped by the sweep. -/
theorem best_price_source_is_median (qs : List PriceSource) :
    (getBestPriceSource [] = none) ∧
    (sweepInstrumentAction true [] = InstrumentAction.skippedNoPrice) ∧
    (qs ≠ [] → ∃ l m, l.Perm qs ∧
      List.Pairwise (fun a b => a.close ≤ b.close) l ∧
      l.get? (qs.length / 2) = some m ∧
      getBestPriceSource qs = some [m] ∧
      sweepInstrumentAction true qs = InstrumentAction.processed [m]) := by
  refine ⟨rfl, rfl, fun hne => ?_⟩
  set l := qs.mergeSort (fun a b => a.close ≤ b.close) with hl
  have hperm : l.Perm qs := List.mergeSort_perm qs _
  have hsorted : List.Pairwise (fun a b : PriceSource => a.close ≤ b.close) l := by
    have := @List.sorted_mergeSort PriceSource
      (fun a b : PriceSource => decide (a.close ≤ b.close))
      (fun a b c hab hbc => by
        simp only [decide_eq_true_eq] at *
        exact le_trans hab hbc)
      (fun a b => by
        simp only [Bool.or_eq_true, decide_eq_true_eq]
        exact le_total a.close b.close)
      qs
    refine this.imp ?_
    intro a b h
    simpa using h
  have hlen : l.length = qs.length := hperm.length_eq
  have hidx : qs.length / 2 < l.length := by
    rw [hlen]
    have : 0 < qs.length := List.length_pos.mpr hne
    omega
  rcases List.get?_eq_get hidx with hget
  refine ⟨l, l.get ⟨qs.length / 2, hidx⟩, hperm, hsorted, hget, ?_, ?_⟩
  · simp only [getBestPriceSource, if_neg hne]
    rw [← hl, hget]
    rfl
  · simp only [sweepInstrumentAction, not_true, if_neg, getBestPriceSource, if_neg hne]
    rw [← hl, hget]
    rfl

/-- C7 witness: a concrete four-quote window is non-empty, and the main theorem
applied to it produces the sorted permutation holding its upper median. -/
theorem best_price_source_is_median_witness :
    ([⟨1, 1, 1, 40, 0⟩, ⟨1, 1, 1, 10, 1⟩, ⟨1, 1, 1, 30, 2⟩, ⟨1, 1, 1, 20, 3⟩] :
        List PriceSource) ≠ [] ∧
    ∃ l m, l.Perm
        ([⟨1, 1, 1, 40, 0⟩, ⟨1, 1, 1, 10, 1⟩, ⟨1, 1, 1, 30, 2⟩, ⟨1, 1, 1, 20, 3⟩] :
          List PriceSource) ∧
      List.Pairwise (fun a b => a.close ≤ b.close) l ∧
      l.get? 2 = some m ∧
      getBestPriceSource
        [⟨1, 1, 1, 40, 0⟩, ⟨1, 1, 1, 10, 1⟩, ⟨1, 1, 1, 30, 2⟩, ⟨1, 1, 1, 20, 3⟩]
        = some [m] ∧
      sweepInstrumentAction true
        [⟨1, 1, 1, 40, 0⟩, ⟨1, 1, 1, 10, 1⟩, ⟨1, 1, 1, 30, 2⟩, ⟨1, 1, 1, 20, 3⟩]
        = InstrumentAction.processed [m] :=
  ⟨List.cons_ne_nil _ _,
    (best_price_source_is_median
      [⟨1, 1, 1, 40, 0⟩, ⟨1, 1, 1, 10, 1⟩, ⟨1, 1, 1, 30, 2⟩, ⟨1, 1, 1, 20, 3⟩]).2.2
      (List.cons_ne_nil _ _)⟩


/-- A string starts with another exactly when it extends it. -/
theorem strStartsWith_iff_append (s p : String) :
    strStartsWith s p = true ↔ ∃ t, s = p ++ t := by
  unfold strStartsWith
  rw [List.isPrefixOf_iff_prefix]
  constructor
  · rintro ⟨r, hr⟩
    refine ⟨String.mk r, String.ext ?_⟩
    simpa [String.toList, String.data_append] using hr.symm
  · rintro ⟨t, rfl⟩
    exact ⟨t.toList, by simp [String.toList, String.data_append]⟩

/-- C6: during a sweep pass, a pending BRACKET_UNFILLED order is auto-cancelled
— closed as BRACKET_CANCELLED with no trigger evaluation and no fill attempt —
exactly when the trader has no open position on the instrument and no
LIMIT_UNFILLED order with a strictly earlier processed timestamp is pending
there; otherwise the order proceeds to the fill attempt. -/
theorem sweep_orphan_bracket_cleanup (st : EngineState) (o : Order)
    (price_sources : List PriceSource) (pos : Option Position)
    (outcome : MarketOutcome) (ext : Bool) (now_ms : ℤ)
    (hsrc : o.src = OrderSource.BRACKET_UNFILLED) :
    (∀ o', o' ∈ getUnfilledOrders st o.trade_pair (some o.processed_ms) ↔
      (o' ∈ st.pending ∧ o'.trade_pair = o.trade_pair ∧
       o'.src = OrderSource.LIMIT_UNFILLED ∧ o'.processed_ms < o.processed_ms)) ∧
    (pos = none ∧ getUnfilledOrders st o.trade_pair (some o.processed_ms) = [] →
      sweepOrderStep st o price_sources pos outcome ext now_ms =
        (SweepAction.orphanCancelled,
         closeLimitOrder st o OrderSource.BRACKET_CANCELLED now_ms)) ∧
    ((pos ≠ none ∨ getUnfilledOrders st o.trade_pair (some o.processed_ms) ≠ []) →
      ∃ b r, sweepOrderStep st o price_sources pos outcome ext now_ms =
        (SweepAction.attempted b, r)) := by
  have hopen : o.src.is_open = true := by
    simp [OrderSource.is_open, hsrc]
  refine ⟨fun o' => ?_, fun h => ?_, fun h => ?_⟩
  · simp only [getUnfilledOrders, List.mem_filter, Bool.and_eq_true, beq_iff_eq,
      decide_eq_true_eq]
    tauto
  · simp only [sweepOrderStep, hopen, Bool.not_true, Bool.false_eq_true, if_false]
    rw [if_pos ⟨hsrc, h.1, h.2⟩]
  · simp only [sweepOrderStep, hopen, Bool.not_true, Bool.false_eq_true, if_false]
    rw [if_neg]
    · exact ⟨_, _, rfl⟩
    · rintro ⟨-, h1, h2⟩
      rcases h with h | h
      · exact h h1
      · exact h h2

/-- C6 witness: a concrete orphaned bracket order (no position, empty pending
table, so no earlier unfilled LIMIT order) is auto-cancelled by the sweep. -/
theorem sweep_orphan_bracket_cleanup_witness :
    (({ order_uuid := "p-bracket-0", trade_pair := "BTCUSD",
        order_type := OrderType.long, execution_type := ExecutionType.bracket,
        leverage := none, value := none, quantity := some 1, limit_price := none,
        stop_loss := some 10, take_profit := none, bracket_orders := none,
        src := OrderSource.BRACKET_UNFILLED, processed_ms := 5, price := 0,
        bid := 0, ask := 0 } : Order).src = OrderSource.BRACKET_UNFILLED) ∧
    sweepOrderStep ⟨[], [], [], []⟩
      { order_uuid := "p-bracket-0", trade_pair := "BTCUSD",
        order_type := OrderType.long, execution_type := ExecutionType.bracket,
        leverage := none, value := none, quantity := some 1, limit_price := none,
        stop_loss := some 10, take_profit := none, bracket_orders := none,
        src := OrderSource.BRACKET_UNFILLED, processed_ms := 5, price := 0,
        bid := 0, ask := 0 }
      [] none (MarketOutcome.noPosition) false 99 =
      (SweepAction.orphanCancelled,
       closeLimitOrder ⟨[], [], [], []⟩
        { order_uuid := "p-bracket-0", trade_pair := "BTCUSD",
          order_type := OrderType.long, execution_type := ExecutionType.bracket,
          leverage := none, value := none, quantity := some 1, limit_price := none,
          stop_loss := some 10, take_profit := none, bracket_orders := none,
          src := OrderSource.BRACKET_UNFILLED, processed_ms := 5, price := 0,
          bid := 0, ask := 0 }
        OrderSource.BRACKET_CANCELLED 99) :=
  ⟨rfl,
    (sweep_orphan_bracket_cleanup ⟨[], [], [], []⟩ _ [] none
      (MarketOutcome.noPosition) false 99 rfl).2.1 ⟨rfl, rfl⟩⟩

/-- C8: the cancel request's selection rule — a pending LIMIT_UNFILLED order
is selected exactly when its uuid equals the requested uuid, a pending
BRACKET_UNFILLED order when its uuid extends the requested uuid; every
synthesized bracket child's uuid extends its parent's, so a pending child is
selected by the parent's uuid; and when no pending order matches any parsed
uuid the cancel fails with the not-found error, whose error result carries no
state. -/
theorem cancel_matching_characterization (st : EngineState) (u : String) :
    (∀ o, o ∈ findOrdersToCancelByUuid st u ↔
      o ∈ st.pending ∧
        ((o.src = OrderSource.LIMIT_UNFILLED ∧ o.order_uuid = u) ∨
         (o.src = OrderSource.BRACKET_UNFILLED ∧ ∃ t, o.order_uuid = u ++ t))) ∧
    (∀ parent i b now_ms,
      ∃ t, (mkBracketChild parent i b now_ms).order_uuid = parent.order_uuid ++ t) ∧
    (∀ parent i b now_ms st', mkBracketChild parent i b now_ms ∈ st'.pending →
      mkBracketChild parent i b now_ms ∈
        findOrdersToCancelByUuid st' parent.order_uuid) ∧
    (∀ st' uuidArg now_ms,
      (∀ w ∈ parseCancelUuids uuidArg, findOrdersToCancelByUuid st' w = []) →
      ∃ msg, cancelLimitOrder st' uuidArg now_ms = Except.error msg) := by
  have hmem : ∀ (st₀ : EngineState) (u₀ : String) (o : Order),
      o ∈ findOrdersToCancelByUuid st₀ u₀ ↔
      o ∈ st₀.pending ∧
        ((o.src = OrderSource.LIMIT_UNFILLED ∧ o.order_uuid = u₀) ∨
         (o.src = OrderSource.BRACKET_UNFILLED ∧ ∃ t, o.order_uuid = u₀ ++ t)) := by
    intro st₀ u₀ o
    simp only [findOrdersToCancelByUuid, List.mem_filter, Bool.or_eq_true,
      Bool.and_eq_true, beq_iff_eq, strStartsWith_iff_append]
    tauto
  have hchild : ∀ (parent : Order) (i : Nat) (b : BracketSpec) (now_ms : ℤ),
      ∃ t, (mkBracketChild parent i b now_ms).order_uuid = parent.order_uuid ++ t :=
    fun parent i b now_ms =>
      ⟨"-bracket-" ++ toString i, by simp [mkBracketChild, String.append_assoc]⟩
  refine ⟨hmem st u, hchild, fun parent i b now_ms st' hp => ?_,
    fun st' uuidArg now_ms hnone => ?_⟩
  · exact (hmem st' parent.order_uuid _).2 ⟨hp, Or.inr ⟨rfl, hchild parent i b now_ms⟩⟩
  · have hflat :
        ((parseCancelUuids uuidArg).map (fun w => findOrdersToCancelByUuid st' w)).flatten
          = [] := by
      rw [List.flatten_eq_nil_iff]
      intro x hx
      rcases List.mem_map.1 hx with ⟨w, hw, rfl⟩
      exact hnone w hw
    refine ⟨"No unfilled limit orders found", ?_⟩
    simp [cancelLimitOrder, hflat]

/-- C8 witness: with no uuid argument nothing is parsed, no order matches, and
the cancel fails with the not-found error on the empty engine state. -/
theorem cancel_matching_characterization_witness :
    (∀ w ∈ parseCancelUuids none,
      findOrdersToCancelByUuid ⟨[], [], [], []⟩ w = []) ∧
    ∃ msg, cancelLimitOrder ⟨[], [], [], []⟩ none 0 = Except.error msg :=
  ⟨by simp [parseCancelUuids],
    (cancel_matching_characterization ⟨[], [], [], []⟩ "x").2.2.2
      ⟨[], [], [], []⟩ none 0 (by simp [parseCancelUuids])⟩

/-- Closing an order never touches the cooldown table. -/
theorem lastFill_closeLimitOrder (st : EngineState) (o : Order)
    (s : OrderSource) (t : ℤ) :
    (closeLimitOrder st o s t).lastFill = st.lastFill := by
  unfold closeLimitOrder
  split <;> rfl

/-- Writing an order to disk never touches the cooldown table. -/
theorem lastFill_writeToDisk (st : EngineState) (o : Order) :
    (writeToDisk st o).lastFill = st.lastFill := rfl

/-- A fold whose step preserves the cooldown table preserves it overall. -/
theorem foldl_lastFill {α : Type} (f : EngineState → α → EngineState)
    (hf : ∀ s c, (f s c).lastFill = s.lastFill) :
    ∀ (l : List α) (s : EngineState), (l.foldl f s).lastFill = s.lastFill := by
  intro l
  induction l with
  | nil => intro s; rfl
  | cons c l ih => intro s; rw [List.foldl_cons, ih, hf]

/-- Bracket synthesis never touches the cooldown table. -/
theorem lastFill_createSltpState (st : EngineState) (parent : Order) (now_ms : ℤ) :
    (createSltpState st parent now_ms).lastFill = st.lastFill := by
  unfold createSltpState
  refine foldl_lastFill _ ?_ _ st
  intro s c
  rfl

/-- Bracket re-validation against a fresh position never touches the cooldown
table. -/
theorem lastFill_syncPendingBracketOrders (st : EngineState) (pos : Position)
    (tp : String) (now_ms : ℤ) :
    (syncPendingBracketOrders st pos tp now_ms).lastFill = st.lastFill := by
  unfold syncPendingBracketOrders
  refine foldl_lastFill _ ?_ _ st
  intro s o
  split
  · rfl
  · split
    · exact lastFill_closeLimitOrder s o OrderSource.BRACKET_CANCELLED now_ms
    · rfl

/-- Looking up the pair just written into the cooldown table yields its new
timestamp. -/
theorem lastFillGet_lastFillUpdate (m : List (String × ℤ)) (tp : String) (t : ℤ) :
    lastFillGet (lastFillUpdate m tp t) tp = t := by
  unfold lastFillUpdate lastFillGet
  by_cases h : m.any (fun e => e.1 == tp) = true
  · rw [if_pos h]
    induction m with
    | nil => simp at h
    | cons e m ih =>
      by_cases he : e.1 = tp
      · simp [List.find?, he]
      · have hbeq : (e.1 == tp) = false := beq_false_of_ne he
        have h' : m.any (fun e => e.1 == tp) = true := by
          simpa [List.any_cons, hbeq] using h
        simpa [List.find?, hbeq] using ih h'
  · rw [if_neg h]
    have hnone : m.find? (fun e => e.1 == tp) = none := by
      rw [List.find?_eq_none]
      intro x hx hbeq
      exact h (List.any_eq_true.2 ⟨x, hx, hbeq⟩)
    rw [List.find?_append, hnone]
    simp [List.find?]

/-- Filtering a uuid out of a list leaves nothing for `find?` to match. -/
theorem find?_filter_ne_uuid (l : List Order) (u : String) :
    (l.filter (fun p => p.order_uuid != u)).find? (fun p => p.order_uuid == u)
      = none := by
  rw [List.find?_eq_none]
  intro x hx
  have hne := (List.mem_filter.1 hx).2
  simp only [bne_iff_ne, ne_eq] at hne
  simp [hne]

/-- The entry just written is in the store. -/
theorem mem_diskWrite_self (d : List DiskEntry) (tp : String) (b : Bucket)
    (u : String) (o : Order) :
    (⟨tp, b, u, o⟩ : DiskEntry) ∈ diskWrite d tp b u o := by
  unfold diskWrite
  split
  · case isTrue h =>
    obtain ⟨e, he, hcond⟩ := List.any_eq_true.1 h
    exact List.mem_map.2 ⟨e, he, by simp [hcond]⟩
  · exact List.mem_append.2 (Or.inr (by simp))

/-- Every entry of a written store is the new entry or an old one. -/
theorem mem_diskWrite_elim {d : List DiskEntry} {tp : String} {b : Bucket}
    {u : String} {o : Order} {e : DiskEntry} (he : e ∈ diskWrite d tp b u o) :
    e = ⟨tp, b, u, o⟩ ∨ e ∈ d := by
  unfold diskWrite at he
  split at he
  · rcases List.mem_map.1 he with ⟨x, hx, rfl⟩
    by_cases hc : (x.trade_pair == tp && x.bucket == b && x.uuid == u) = true
    · simp [hc]
    · simp only [hc, Bool.false_eq_true, if_false]
      exact Or.inr hx
  · rcases List.mem_append.1 he with hx | hx
    · exact Or.inr hx
    · simp only [List.mem_singleton] at hx
      exact Or.inl hx

/-- Explicit form of `_close_limit_order` for a non-ORGANIC terminal status. -/
theorem closeLimitOrder_eq (st : EngineState) (o : Order) (s : OrderSource)
    (t : ℤ) (hs : s ≠ OrderSource.ORGANIC) (hopen : s.is_open = false) :
    closeLimitOrder st o s t =
      { pending := st.pending.filter (fun p => p.order_uuid != o.order_uuid),
        closedOrders := st.closedOrders ++ [{ o with src := s, processed_ms := t }],
        disk := diskWrite (diskRemoveUnfilled st.disk o.trade_pair o.order_uuid)
          o.trade_pair Bucket.closed o.order_uuid
          { o with src := s, processed_ms := t },
        lastFill := st.lastFill } := by
  unfold closeLimitOrder
  rw [if_neg hs]
  simp [hopen]

/-- What `_close_limit_order` leaves behind for a non-ORGANIC terminal status:
the uuid is gone from the pending list, the closed cache ends with the updated
record, the closed disk bucket holds the updated record, and no unfilled disk
file for the pair and uuid remains. -/
theorem close_resolution (st : EngineState) (o : Order) (s : OrderSource)
    (t : ℤ) (hs : s ≠ OrderSource.ORGANIC) (hopen : s.is_open = false) :
    (closeLimitOrder st o s t).pending.find?
        (fun p => p.order_uuid == o.order_uuid) = none ∧
    (closeLimitOrder st o s t).closedOrders.getLast?
        = some { o with src := s, processed_ms := t } ∧
    (∃ e ∈ (closeLimitOrder st o s t).disk, e.bucket = Bucket.closed ∧
      e.uuid = o.order_uuid ∧ e.order = { o with src := s, processed_ms := t }) ∧
    (∀ e ∈ (closeLimitOrder st o s t).disk,
      ¬ (e.trade_pair = o.trade_pair ∧ e.bucket = Bucket.unfilled ∧
         e.uuid = o.order_uuid)) := by
  rw [closeLimitOrder_eq st o s t hs hopen]
  refine ⟨find?_filter_ne_uuid _ _, by simp, ?_, ?_⟩
  · exact ⟨⟨o.trade_pair, Bucket.closed, o.order_uuid,
      { o with src := s, processed_ms := t }⟩,
      mem_diskWrite_self _ _ _ _ _, rfl, rfl, rfl⟩
  · intro e he
    rcases mem_diskWrite_elim he with rfl | hmem
    · rintro ⟨-, h, -⟩
      exact Bucket.noConfusion h
    · rintro ⟨h1, h2, h3⟩
      have := (List.mem_filter.1 hmem).2
      simp [diskRemoveUnfilled, h1, h2, h3] at this

/-- C3: once a pending order's trigger is confirmed and the fill runs, a
failed market call (an error or a missing updated position) resolves the
order to its cancelled terminal status — removed from the pending list and
persisted in the closed bucket, never left unfilled on disk; when the market
call succeeds and only the synthesis of the derived bracket order fails with
`BracketOrderException`, the order still resolves to its filled terminal
status with the failure reported as an error message; and in every case the
order leaves the pending list and ends in a closed terminal status. -/
theorem fill_failure_resolution (st : EngineState) (o : Order) (ps : PriceSource)
    (fp : Option ℚ) (outcome : MarketOutcome) (ext : Bool) (now_ms : ℤ)
    (hsrc : o.src = OrderSource.LIMIT_UNFILLED ∨ o.src = OrderSource.BRACKET_UNFILLED) :
    ((outcome = MarketOutcome.noPosition ∨ ∃ m, outcome = MarketOutcome.err m) →
      (fillLimitOrderWithPriceSource st o ps fp outcome ext now_ms).error_msg.isSome
        = true ∧
      (fillLimitOrderWithPriceSource st o ps fp outcome ext now_ms).state.pending.find?
        (fun p => p.order_uuid == o.order_uuid) = none ∧
      (fillLimitOrderWithPriceSource st o ps fp outcome ext now_ms).state.closedOrders.getLast?
        = some { o with
            src := (OrderSource.get_cancel o.src).getD o.src,
            processed_ms := ps.start_ms } ∧
      ((OrderSource.get_cancel o.src).getD o.src).is_cancelled = true ∧
      (∃ e ∈ (fillLimitOrderWithPriceSource st o ps fp outcome ext now_ms).state.disk,
        e.bucket = Bucket.closed ∧ e.uuid = o.order_uuid ∧
        e.order.src = (OrderSource.get_cancel o.src).getD o.src) ∧
      (∀ e ∈ (fillLimitOrderWithPriceSource st o ps fp outcome ext now_ms).state.disk,
        ¬ (e.trade_pair = o.trade_pair ∧ e.bucket = Bucket.unfilled ∧
           e.uuid = o.order_uuid))) ∧
    (∀ filled posn, outcome = MarketOutcome.ok filled posn →
      o.execution_type = ExecutionType.limit → o.bracket_orders ≠ none →
      createSltpOutcome (fillUpdatedOrder o filled fp) ext = SynthResult.bracketError →
      (fillLimitOrderWithPriceSource st o ps fp outcome ext now_ms).error_msg.isSome
        = true ∧
      (fillLimitOrderWithPriceSource st o ps fp outcome ext now_ms).state.closedOrders.getLast?
        = some { fillUpdatedOrder o filled fp with
            src := (OrderSource.get_fill o.src).getD o.src,
            processed_ms := ps.start_ms } ∧
      ((OrderSource.get_fill o.src).getD o.src).is_closed = true ∧
      ((OrderSource.get_fill o.src).getD o.src).is_cancelled = false) ∧
    ((fillLimitOrderWithPriceSource st o ps fp outcome ext now_ms).state.pending.find?
        (fun p => p.order_uuid == o.order_uuid) = none ∧
      ∃ last, (fillLimitOrderWithPriceSource st o ps fp outcome ext now_ms).state.closedOrders.getLast?
          = some last ∧ last.order_uuid = o.order_uuid ∧
        last.src.is_closed = true) := by
  have hfillSrc : ((OrderSource.get_fill o.src).getD o.src) ≠ OrderSource.ORGANIC ∧
      ((OrderSource.get_fill o.src).getD o.src).is_open = false ∧
      ((OrderSource.get_fill o.src).getD o.src).is_closed = true ∧
      ((OrderSource.get_fill o.src).getD o.src).is_cancelled = false := by
    rcases hsrc with h | h <;> rw [h] <;>
      exact ⟨by decide, by decide, by decide, by decide⟩
  have hcancelSrc : ((OrderSource.get_cancel o.src).getD o.src) ≠ OrderSource.ORGANIC ∧
      ((OrderSource.get_cancel o.src).getD o.src).is_open = false ∧
      ((OrderSource.get_cancel o.src).getD o.src).is_cancelled = true ∧
      ((OrderSource.get_cancel o.src).getD o.src).is_closed = true := by
    rcases hsrc with h | h <;> rw [h] <;>
      exact ⟨by decide, by decide, by decide, by decide⟩
  have final : ∀ (stX : EngineState) (oX : Order) (sX : OrderSource),
      oX.order_uuid = o.order_uuid → sX ≠ OrderSource.ORGANIC →
      sX.is_open = false → sX.is_closed = true →
      (closeLimitOrder stX oX sX ps.start_ms).pending.find?
          (fun p => p.order_uuid == o.order_uuid) = none ∧
      ∃ last, (closeLimitOrder stX oX sX ps.start_ms).closedOrders.getLast?
          = some last ∧ last.order_uuid = o.order_uuid ∧
        last.src.is_closed = true := by
    intro stX oX sX huuid hsX hoX hcX
    have key := close_resolution stX oX sX ps.start_ms hsX hoX
    rw [huuid] at key
    exact ⟨key.1, _, key.2.1, rfl, hcX⟩
  refine ⟨fun hout => ?_, fun filled posn hout hexec hbr hsynth => ?_, ?_⟩
  · -- failed market call: every branch closes with the cancel status
    have key := close_resolution st o ((OrderSource.get_cancel o.src).getD o.src)
      ps.start_ms hcancelSrc.1 hcancelSrc.2.1
    have hparts :
        (fillLimitOrderWithPriceSource st o ps fp outcome ext now_ms).error_msg
          = some "Could not fill limit order" ∧
        (fillLimitOrderWithPriceSource st o ps fp outcome ext now_ms).state
          = closeLimitOrder st o ((OrderSource.get_cancel o.src).getD o.src)
              ps.start_ms := by
      rcases hap : appliedOrderForFill o with _ | ap
      · unfold fillLimitOrderWithPriceSource
        rw [hap]
        exact ⟨rfl, rfl⟩
      · rcases hout with rfl | ⟨m, rfl⟩ <;>
        · unfold fillLimitOrderWithPriceSource
          rw [hap]
          exact ⟨rfl, rfl⟩
    rw [hparts.1, hparts.2]
    obtain ⟨e, he, hb, hu, horder⟩ := key.2.2.1
    exact ⟨rfl, key.1, key.2.1, hcancelSrc.2.2.1,
      ⟨e, he, hb, hu, by rw [horder]⟩, key.2.2.2⟩
  · -- market call succeeded, bracket synthesis raised BracketOrderException
    subst hout
    have hap : appliedOrderForFill o = some o := by
      unfold appliedOrderForFill
      rw [if_neg (by simp [hexec])]
    have hcond : o.execution_type = ExecutionType.limit ∧ o.bracket_orders ≠ none :=
      ⟨hexec, hbr⟩
    simp only [fillLimitOrderWithPriceSource, hap, if_pos hcond, hsynth]
    exact ⟨rfl,
      (close_resolution _ (fillUpdatedOrder o filled fp)
        ((OrderSource.get_fill o.src).getD o.src) ps.start_ms
        hfillSrc.1 hfillSrc.2.1).2.1,
      hfillSrc.2.2.1, hfillSrc.2.2.2⟩
  · -- every outcome resolves the order out of the pending list into a closed
    -- terminal status
    rcases hap : appliedOrderForFill o with _ | ap
    · simp only [fillLimitOrderWithPriceSource, hap]
      exact final _ _ _ rfl hcancelSrc.1 hcancelSrc.2.1 hcancelSrc.2.2.2
    · rcases outcome with m | _ | ⟨filled, posn⟩
      · simp only [fillLimitOrderWithPriceSource, hap]
        exact final _ _ _ rfl hcancelSrc.1 hcancelSrc.2.1 hcancelSrc.2.2.2
      · simp only [fillLimitOrderWithPriceSource, hap]
        exact final _ _ _ rfl hcancelSrc.1 hcancelSrc.2.1 hcancelSrc.2.2.2
      · simp only [fillLimitOrderWithPriceSource, hap]
        split
        · split
          · exact final _ _ _ rfl hfillSrc.1 hfillSrc.2.1 hfillSrc.2.2.1
          · exact final _ _ _ rfl hfillSrc.1 hfillSrc.2.1 hfillSrc.2.2.1
          · exact final _ _ _ rfl hcancelSrc.1 hcancelSrc.2.1 hcancelSrc.2.2.2
        · exact final _ _ _ rfl hfillSrc.1 hfillSrc.2.1 hfillSrc.2.2.1

/-- C3 witness: a pending LIMIT_UNFILLED order whose market call returns no
updated position ends as LIMIT_CANCELLED — gone from the pending list, last
in the closed cache, persisted in the closed bucket with no unfilled file
left. -/
theorem fill_failure_resolution_witness :
    ((⟨"X", "BTCUSD", OrderType.long, ExecutionType.limit, some 1, none, none,
        some 50000, none, none, none, OrderSource.LIMIT_UNFILLED, 5, 0, 0, 0⟩ :
        Order).src = OrderSource.LIMIT_UNFILLED ∨
      (⟨"X", "BTCUSD", OrderType.long, ExecutionType.limit, some 1, none, none,
        some 50000, none, none, none, OrderSource.LIMIT_UNFILLED, 5, 0, 0, 0⟩ :
        Order).src = OrderSource.BRACKET_UNFILLED) ∧
    ((fillLimitOrderWithPriceSource
        ⟨[⟨"X", "BTCUSD", OrderType.long, ExecutionType.limit, some 1, none, none,
            some 50000, none, none, none, OrderSource.LIMIT_UNFILLED, 5, 0, 0, 0⟩],
          [],
          [⟨"BTCUSD", Bucket.unfilled, "X",
            ⟨"X", "BTCUSD", OrderType.long, ExecutionType.limit, some 1, none, none,
              some 50000, none, none, none, OrderSource.LIMIT_UNFILLED, 5, 0, 0, 0⟩⟩],
          []⟩
        ⟨"X", "BTCUSD", OrderType.long, ExecutionType.limit, some 1, none, none,
          some 50000, none, none, none, OrderSource.LIMIT_UNFILLED, 5, 0, 0, 0⟩
        ⟨49999, 50001, 50000, 50000, 100⟩ (some 50000) MarketOutcome.noPosition
        false 100).error_msg.isSome = true ∧
      (fillLimitOrderWithPriceSource
        ⟨[⟨"X", "BTCUSD", OrderType.long, ExecutionType.limit, some 1, none, none,
            some 50000, none, none, none, OrderSource.LIMIT_UNFILLED, 5, 0, 0, 0⟩],
          [],
          [⟨"BTCUSD", Bucket.unfilled, "X",
            ⟨"X", "BTCUSD", OrderType.long, ExecutionType.limit, some 1, none, none,
              some 50000, none, none, none, OrderSource.LIMIT_UNFILLED, 5, 0, 0, 0⟩⟩],
          []⟩
        ⟨"X", "BTCUSD", OrderType.long, ExecutionType.limit, some 1, none, none,
          some 50000, none, none, none, OrderSource.LIMIT_UNFILLED, 5, 0, 0, 0⟩
        ⟨49999, 50001, 50000, 50000, 100⟩ (some 50000) MarketOutcome.noPosition
        false 100).state.pending.find? (fun p => p.order_uuid == "X") = none ∧
      (fillLimitOrderWithPriceSource
        ⟨[⟨"X", "BTCUSD", OrderType.long, ExecutionType.limit, some 1, none, none,
            some 50000, none, none, none, OrderSource.LIMIT_UNFILLED, 5, 0, 0, 0⟩],
          [],
          [⟨"BTCUSD", Bucket.unfilled, "X",
            ⟨"X", "BTCUSD", OrderType.long, ExecutionType.limit, some 1, none, none,
              some 50000, none, none, none, OrderSource.LIMIT_UNFILLED, 5, 0, 0, 0⟩⟩],
          []⟩
        ⟨"X", "BTCUSD", OrderType.long, ExecutionType.limit, some 1, none, none,
          some 50000, none, none, none, OrderSource.LIMIT_UNFILLED, 5, 0, 0, 0⟩
        ⟨49999, 50001, 50000, 50000, 100⟩ (some 50000) MarketOutcome.noPosition
        false 100).state.closedOrders.getLast?
        = some ⟨"X", "BTCUSD", OrderType.long, ExecutionType.limit, some 1, none,
            none, some 50000, none, none, none, OrderSource.LIMIT_CANCELLED, 100,
            0, 0, 0⟩ ∧
      OrderSource.LIMIT_CANCELLED.is_cancelled = true ∧
      (∃ e ∈ (fillLimitOrderWithPriceSource
        ⟨[⟨"X", "BTCUSD", OrderType.long, ExecutionType.limit, some 1, none, none,
            some 50000, none, none, none, OrderSource.LIMIT_UNFILLED, 5, 0, 0, 0⟩],
          [],
          [⟨"BTCUSD", Bucket.unfilled, "X",
            ⟨"X", "BTCUSD", OrderType.long, ExecutionType.limit, some 1, none, none,
              some 50000, none, none, none, OrderSource.LIMIT_UNFILLED, 5, 0, 0, 0⟩⟩],
          []⟩
        ⟨"X", "BTCUSD", OrderType.long, ExecutionType.limit, some 1, none, none,
          some 50000, none, none, none, OrderSource.LIMIT_UNFILLED, 5, 0, 0, 0⟩
        ⟨49999, 50001, 50000, 50000, 100⟩ (some 50000) MarketOutcome.noPosition
        false 100).state.disk, e.bucket = Bucket.closed ∧ e.uuid = "X" ∧
        e.order.src = OrderSource.LIMIT_CANCELLED) ∧
      (∀ e ∈ (fillLimitOrderWithPriceSource
        ⟨[⟨"X", "BTCUSD", OrderType.long, ExecutionType.limit, some 1, none, none,
            some 50000, none, none, none, OrderSource.LIMIT_UNFILLED, 5, 0, 0, 0⟩],
          [],
          [⟨"BTCUSD", Bucket.unfilled, "X",
            ⟨"X", "BTCUSD", OrderType.long, ExecutionType.limit, some 1, none, none,
              some 50000, none, none, none, OrderSource.LIMIT_UNFILLED, 5, 0, 0, 0⟩⟩],
          []⟩
        ⟨"X", "BTCUSD", OrderType.long, ExecutionType.limit, some 1, none, none,
          some 50000, none, none, none, OrderSource.LIMIT_UNFILLED, 5, 0, 0, 0⟩
        ⟨49999, 50001, 50000, 50000, 100⟩ (some 50000) MarketOutcome.noPosition
        false 100).state.disk,
        ¬ (e.trade_pair = "BTCUSD" ∧ e.bucket = Bucket.unfilled ∧
           e.uuid = "X"))) :=
  ⟨Or.inl rfl,
    (fill_failure_resolution _ _ _ (some 50000) MarketOutcome.noPosition false 100
      (Or.inl rfl)).1 (Or.inl rfl)⟩

/-- After a successful market call the fill records the quote's start time as
the pair's last fill time, whatever the later bracket-synthesis outcome. -/
theorem lastFill_fill_ok (st : EngineState) (o : Order) (best : PriceSource)
    (fp : Option ℚ) (filled : Order) (posn : Position) (ext : Bool) (now_ms : ℤ)
    (ha : (appliedOrderForFill o).isSome = true) :
    (fillLimitOrderWithPriceSource st o best fp (MarketOutcome.ok filled posn)
      ext now_ms).state.lastFill
      = lastFillUpdate st.lastFill o.trade_pair best.start_ms := by
  obtain ⟨ap, hap⟩ := Option.isSome_iff_exists.1 ha
  have hst2 : ((if o.execution_type = ExecutionType.limit ∧
        posn.is_open_position = true ∧ posn.num_orders = 1 then
        syncPendingBracketOrders
          { st with lastFill := lastFillUpdate st.lastFill o.trade_pair best.start_ms }
          posn o.trade_pair now_ms
      else
        { st with
          lastFill := lastFillUpdate st.lastFill o.trade_pair best.start_ms }) :
      EngineState).lastFill = lastFillUpdate st.lastFill o.trade_pair best.start_ms := by
    split
    · rw [lastFill_syncPendingBracketOrders]
    · rfl
  simp only [fillLimitOrderWithPriceSource, hap]
  split
  · split <;>
    · simp only [lastFill_closeLimitOrder, lastFill_createSltpState]
      exact hst2
  · simp only [lastFill_closeLimitOrder]
    exact hst2

/-- C10: when the under-lock re-check confirms a pending order's trigger, the
attempt reports a fill — counted in the sweep's `filled` statistic — for every
market outcome, and a reported fill breaks the per-(trader, instrument) order
loop; by contrast the cooldown timestamp ignores reported fills and tracks
the market call: a failed call leaves the cooldown table untouched while a
successful call stamps the pair with the quote's fill time. -/
theorem sweep_fill_count_and_cooldown (st : EngineState) (o : Order) (u : String)
    (best : PriceSource) (tl : List PriceSource) (pos : Option Position)
    (outcome : MarketOutcome) (ext : Bool) (now_ms : ℤ) (fp : Option ℚ)
    (o' : Order) (it : SweepItem) (rest : List SweepItem) (st1 : EngineState) :
    (st.pending.find? (fun p => p.order_uuid == u) = some o →
      o.src.is_open = true →
      (evaluateTriggerPrice o pos best).isSome = true →
      (attemptFillLimitOrder st u (best :: tl) pos outcome ext now_ms).filled
        = true) ∧
    (sweepOrderStep st it.order (best :: tl) it.pos it.outcome
        it.externalCreateFails now_ms = (SweepAction.attempted true, st1) →
      sweepOrdersLoop st (it :: rest) (best :: tl) now_ms = (1, 1, st1)) ∧
    ((outcome = MarketOutcome.noPosition ∨ ∃ m, outcome = MarketOutcome.err m) →
      (fillLimitOrderWithPriceSource st o' best fp outcome ext
        now_ms).state.lastFill = st.lastFill) ∧
    (∀ filled posn, outcome = MarketOutcome.ok filled posn →
      (appliedOrderForFill o').isSome = true →
      lastFillGet (fillLimitOrderWithPriceSource st o' best fp outcome ext
        now_ms).state.lastFill o'.trade_pair = best.start_ms) := by
  refine ⟨fun hfind hopen htrig => ?_, fun hstep => ?_, fun hout => ?_,
    fun filled posn hout ha => ?_⟩
  · obtain ⟨t, ht⟩ := Option.isSome_iff_exists.1 htrig
    simp only [attemptFillLimitOrder, hfind, hopen, Bool.not_true,
      Bool.false_eq_true, if_false, ht]
  · unfold sweepOrdersLoop
    rw [hstep]
  · rcases hap : appliedOrderForFill o' with _ | ap
    · unfold fillLimitOrderWithPriceSource
      rw [hap]
      exact lastFill_closeLimitOrder _ _ _ _
    · rcases hout with rfl | ⟨m, rfl⟩ <;>
      · unfold fillLimitOrderWithPriceSource
        rw [hap]
        exact lastFill_closeLimitOrder _ _ _ _
  · subst hout
    rw [lastFill_fill_ok st o' best fp filled posn ext now_ms ha]
    exact lastFillGet_lastFillUpdate st.lastFill o'.trade_pair best.start_ms

/-- C10 witness: a pending LIMIT_UNFILLED order whose trigger is confirmed is
reported as filled even though the market call fails, and the failed call
leaves the cooldown table empty. -/
theorem sweep_fill_count_and_cooldown_witness :
    (⟨[⟨"X", "BTCUSD", OrderType.long, ExecutionType.limit, some 1, none, none,
        some 50000, none, none, none, OrderSource.LIMIT_UNFILLED, 5, 0, 0, 0⟩],
      [], [], []⟩ : EngineState).pending.find? (fun p => p.order_uuid == "X")
      = some ⟨"X", "BTCUSD", OrderType.long, ExecutionType.limit, some 1, none,
          none, some 50000, none, none, none, OrderSource.LIMIT_UNFILLED, 5, 0,
          0, 0⟩ ∧
    (evaluateTriggerPrice
      ⟨"X", "BTCUSD", OrderType.long, ExecutionType.limit, some 1, none, none,
        some 50000, none, none, none, OrderSource.LIMIT_UNFILLED, 5, 0, 0, 0⟩
      none ⟨49999, 50000, 50000, 50000, 100⟩).isSome = true ∧
    (attemptFillLimitOrder
      ⟨[⟨"X", "BTCUSD", OrderType.long, ExecutionType.limit, some 1, none, none,
          some 50000, none, none, none, OrderSource.LIMIT_UNFILLED, 5, 0, 0, 0⟩],
        [], [], []⟩
      "X" [⟨49999, 50000, 50000, 50000, 100⟩] none (MarketOutcome.err "boom")
      false 100).filled = true ∧
    (fillLimitOrderWithPriceSource
      ⟨[⟨"X", "BTCUSD", OrderType.long, ExecutionType.limit, some 1, none, none,
          some 50000, none, none, none, OrderSource.LIMIT_UNFILLED, 5, 0, 0, 0⟩],
        [], [], []⟩
      ⟨"X", "BTCUSD", OrderType.long, ExecutionType.limit, some 1, none, none,
        some 50000, none, none, none, OrderSource.LIMIT_UNFILLED, 5, 0, 0, 0⟩
      ⟨49999, 50000, 50000, 50000, 100⟩ (some 50000) (MarketOutcome.err "boom")
      false 100).state.lastFill
      = (⟨[⟨"X", "BTCUSD", OrderType.long, ExecutionType.limit, some 1, none,
            none, some 50000, none, none, none, OrderSource.LIMIT_UNFILLED, 5, 0,
            0, 0⟩],
          [], [], []⟩ : EngineState).lastFill := by
  have H := sweep_fill_count_and_cooldown
    ⟨[⟨"X", "BTCUSD", OrderType.long, ExecutionType.limit, some 1, none, none,
        some 50000, none, none, none, OrderSource.LIMIT_UNFILLED, 5, 0, 0, 0⟩],
      [], [], []⟩
    ⟨"X", "BTCUSD", OrderType.long, ExecutionType.limit, some 1, none, none,
      some 50000, none, none, none, OrderSource.LIMIT_UNFILLED, 5, 0, 0, 0⟩
    "X" ⟨49999, 50000, 50000, 50000, 100⟩ [] none (MarketOutcome.err "boom")
    false 100 (some 50000)
    ⟨"X", "BTCUSD", OrderType.long, ExecutionType.limit, some 1, none, none,
      some 50000, none, none, none, OrderSource.LIMIT_UNFILLED, 5, 0, 0, 0⟩
    ⟨⟨"X", "BTCUSD", OrderType.long, ExecutionType.limit, some 1, none, none,
        some 50000, none, none, none, OrderSource.LIMIT_UNFILLED, 5, 0, 0, 0⟩,
      none, MarketOutcome.err "boom", false⟩ [] ⟨[], [], [], []⟩
  exact ⟨rfl, by decide, H.1 rfl rfl (by decide), H.2.2.1 (Or.inr ⟨"boom", rfl⟩)⟩

/-- Whenever the direction-reversal step produces an order dict, that dict is
what every branch of the fill hands to the market-order collaborator. -/
theorem fill_applied (st : EngineState) (o ap : Order) (ps : PriceSource)
    (fp : Option ℚ) (outcome : MarketOutcome) (ext : Bool) (now_ms : ℤ)
    (hap : appliedOrderForFill o = some ap) :
    (fillLimitOrderWithPriceSource st o ps fp outcome ext now_ms).applied
      = some ap := by
  rcases outcome with m | _ | ⟨f, q⟩ <;>
    simp only [fillLimitOrderWithPriceSource, hap]
  split
  · split <;> rfl
  · rfl

/-- C5 counterexample: a BRACKET order that triggers immediately at submission
(LONG position, stop loss 48000, quote bid 47000) is converted to a MARKET
order before the fill, so the order applied to the position ledger keeps the
position's own LONG direction and its positive quantity — it is not reversed,
contradicting the claim for the submission-time path. -/
theorem bracket_fill_reversal_counterexample :
    ((processLimitOrder ⟨[], [], [], []⟩
        ⟨"B1", "BTCUSD", OrderType.long, none, none, some 1, none, some 48000,
          none, none, 5⟩
        ExecutionType.bracket false 10 [⟨47000, 47001, 47000, 47000, 100⟩] true
        (some ⟨OrderType.long, 1, 50000, [], true, 1⟩)
        (MarketOutcome.ok
          ⟨"B1", "BTCUSD", OrderType.long, ExecutionType.market, none, none,
            some 1, none, some 48000, none, none, OrderSource.ORGANIC, 100,
            48000, 47000, 47001⟩
          ⟨OrderType.long, 0, 50000, [], false, 2⟩)
        false 100).applied.map (fun a => (a.order_type, a.quantity)))
      = some (OrderType.long, some 1) := by
  rfl

/-- C5 (amended): for a pending BRACKET order filled through the sweep path —
where the order still carries BRACKET execution — the order dict applied to
the position ledger carries the opposite of the live position's direction and
each present nonzero size field negated (the reversal maps zero or absent
size fields to absent). -/
theorem bracket_fill_reversal_amended (st : EngineState) (u : String)
    (best : PriceSource) (tl : List PriceSource) (p : Position) (o : Order)
    (outcome : MarketOutcome) (ext : Bool) (now_ms : ℤ)
    (hfind : st.pending.find? (fun q => q.order_uuid == u) = some o)
    (hopen : o.src.is_open = true)
    (hexec : o.execution_type = ExecutionType.bracket)
    (htrig : (evaluateTriggerPrice o (some p) best).isSome = true)
    (hdir : p.position_type = OrderType.long ∨ p.position_type = OrderType.short)
    (hlev : ∀ x, o.leverage = some x → x ≠ 0)
    (hval : ∀ x, o.value = some x → x ≠ 0)
    (hqty : ∀ x, o.quantity = some x → x ≠ 0) :
    ∃ ap, (attemptFillLimitOrder st u (best :: tl) (some p) outcome ext
        now_ms).applied = some ap ∧
      OrderType.opposite_order_type p.position_type = some ap.order_type ∧
      ap.leverage = o.leverage.map (fun x => -x) ∧
      ap.value = o.value.map (fun x => -x) ∧
      ap.quantity = o.quantity.map (fun x => -x) := by
  obtain ⟨t, ht⟩ := Option.isSome_iff_exists.1 htrig
  have hneg : ∀ (v : Option ℚ), (∀ x, v = some x → x ≠ 0) →
      negIfTruthy v = v.map (fun x => -x) := by
    intro v hv
    cases v with
    | none => rfl
    | some x =>
      simp only [negIfTruthy, Option.map_some']
      rw [if_neg (hv x rfl)]
  simp only [attemptFillLimitOrder, hfind, hopen, Bool.not_true,
    Bool.false_eq_true, if_false, ht, if_pos hexec]
  rcases hdir with h | h
  · have hap : appliedOrderForFill { o with order_type := p.position_type } =
        some { o with
          order_type := OrderType.short,
          leverage := negIfTruthy o.leverage,
          value := negIfTruthy o.value,
          quantity := negIfTruthy o.quantity } := by
      simp only [appliedOrderForFill, hexec, h, if_pos, OrderType.opposite_order_type]
    exact ⟨_, fill_applied _ _ _ _ _ _ _ _ hap,
      by rw [h]; rfl, hneg o.leverage hlev, hneg o.value hval, hneg o.quantity hqty⟩
  · have hap : appliedOrderForFill { o with order_type := p.position_type } =
        some { o with
          order_type := OrderType.long,
          leverage := negIfTruthy o.leverage,
          value := negIfTruthy o.value,
          quantity := negIfTruthy o.quantity } := by
      simp only [appliedOrderForFill, hexec, h, if_pos, OrderType.opposite_order_type]
    exact ⟨_, fill_applied _ _ _ _ _ _ _ _ hap,
      by rw [h]; rfl, hneg o.leverage hlev, hneg o.value hval, hneg o.quantity hqty⟩

/-- C5 witness: a pending BRACKET order on a LONG position, filled by the
sweep, is applied to the ledger as a SHORT order with negated quantity. -/
theorem bracket_fill_reversal_amended_witness :
    ∃ ap, (attemptFillLimitOrder
        ⟨[⟨"B1", "BTCUSD", OrderType.long, ExecutionType.bracket, none, none,
            some 1, none, some 48000, none, none, OrderSource.BRACKET_UNFILLED,
            5, 0, 0, 0⟩], [], [], []⟩
        "B1" [⟨47000, 47001, 47000, 47000, 100⟩]
        (some ⟨OrderType.long, 1, 50000, [], true, 1⟩)
        (MarketOutcome.err "boom") false 100).applied = some ap ∧
      OrderType.opposite_order_type OrderType.long = some ap.order_type ∧
      ap.leverage = (none : Option ℚ).map (fun x => -x) ∧
      ap.value = (none : Option ℚ).map (fun x => -x) ∧
      ap.quantity = (some (1 : ℚ)).map (fun x => -x) :=
  bracket_fill_reversal_amended
    ⟨[⟨"B1", "BTCUSD", OrderType.long, ExecutionType.bracket, none, none,
        some 1, none, some 48000, none, none, OrderSource.BRACKET_UNFILLED,
        5, 0, 0, 0⟩], [], [], []⟩
    "B1" ⟨47000, 47001, 47000, 47000, 100⟩ []
    ⟨OrderType.long, 1, 50000, [], true, 1⟩
    ⟨"B1", "BTCUSD", OrderType.long, ExecutionType.bracket, none, none, some 1,
      none, some 48000, none, none, OrderSource.BRACKET_UNFILLED, 5, 0, 0, 0⟩
    (MarketOutcome.err "boom") false 100 rfl rfl rfl (by decide) (Or.inl rfl)
    (fun x hx => Option.noConfusion hx) (fun x hx => Option.noConfusion hx)
    (fun x hx => by cases Option.some.inj hx; decide)

/-- C9: evaluating the edit path on a concrete stored LIMIT order whose edit
triggers an immediate fill.  The old order is popped from the pending list
and the edited order is executed as a MARKET/ORGANIC fill, but the
`_close_limit_order` ORGANIC early-return performs no disk cleanup, so the
pre-edit order's file is left behind in the unfilled bucket (and would be
reloaded as a live pending order by the next startup recovery), contradicting
the claim that no stale copy of the pre-edit order remains in either store. -/
theorem edit_immediate_fill_stale_disk :
    (processLimitOrder
      ⟨[⟨"X", "BTCUSD", OrderType.long, ExecutionType.limit, some 1, none, none,
          some 50000, none, none, none, OrderSource.LIMIT_UNFILLED, 5, 0, 0, 0⟩],
        [],
        [⟨"BTCUSD", Bucket.unfilled, "X",
          ⟨"X", "BTCUSD", OrderType.long, ExecutionType.limit, some 1, none, none,
            some 50000, none, none, none, OrderSource.LIMIT_UNFILLED, 5, 0, 0, 0⟩⟩],
        []⟩
      ⟨"X", "BTCUSD", OrderType.long, some 1, none, none, some 60000, none, none,
        none, 90⟩
      ExecutionType.limit true 10 [⟨50000, 50001, 50000, 50000, 100⟩] true none
      (MarketOutcome.ok
        ⟨"X", "BTCUSD", OrderType.long, ExecutionType.market, some 1, none, none,
          some 60000, none, none, none, OrderSource.ORGANIC, 100, 60000, 50000,
          50001⟩
        ⟨OrderType.long, 1, 60000, [], true, 1⟩)
      false 100).state
    = ⟨[], [],
       [⟨"BTCUSD", Bucket.unfilled, "X",
         ⟨"X", "BTCUSD", OrderType.long, ExecutionType.limit, some 1, none, none,
           some 50000, none, none, none, OrderSource.LIMIT_UNFILLED, 5, 0, 0, 0⟩⟩],
       [("BTCUSD", 100)]⟩ := by
  rfl

/-- `find?` returns the head of the filtered list. -/
theorem find?_eq_head?_filter {α : Type} (p : α → Bool) (l : List α) :
    l.find? p = (l.filter p).head? := by
  induction l with
  | nil => rfl
  | cons a l ih =>
    cases hpa : p a with
    | true =>
      rw [List.find?_cons, List.filter_cons, hpa, if_pos rfl]
      rfl
    | false =>
      rw [List.find?_cons, List.filter_cons, hpa, if_neg (by simp)]
      exact ih

/-- The in-memory record search is the head of the uuid's records. -/
theorem findOrderInState_eq_head (st : EngineState) (u : String) :
    findOrderInState st u = (memRecords st u).head? := by
  unfold findOrderInState memRecords pendingRecords closedRecords
  rw [find?_eq_head?_filter, List.filter_append]

/-- Uuid uniqueness bounds the records list. -/
theorem uuidUnique_iff_records (st : EngineState) (u : String) :
    uuidUnique st u ↔ (memRecords st u).length ≤ 1 := by
  unfold uuidUnique memRecords pendingRecords closedRecords
  rw [List.filter_append]

/-- A unique uuid that resolves to an order has exactly that one record. -/
theorem memRecords_eq_singleton (st : EngineState) (u : String) (o : Order)
    (hu : uuidUnique st u) (ho : findOrderInState st u = some o) :
    memRecords st u = [o] := by
  rw [findOrderInState_eq_head] at ho
  rw [uuidUnique_iff_records] at hu
  rcases h : memRecords st u with _ | ⟨a, tl⟩
  · rw [h] at ho
    exact Option.noConfusion ho
  · rw [h] at ho hu
    simp only [List.head?_cons, Option.some.injEq] at ho
    have : tl = [] := by
      simp only [List.length_cons] at hu
      exact List.eq_nil_of_length_eq_zero (by omega)
    rw [ho, this]

/-- A singleton record list splits into its pending and closed parts. -/
theorem memRecords_singleton_split (st : EngineState) (u : String) (o : Order)
    (h : memRecords st u = [o]) :
    (pendingRecords st u = [o] ∧ closedRecords st u = []) ∨
    (pendingRecords st u = [] ∧ closedRecords st u = [o]) := by
  unfold memRecords at h
  rcases hp : pendingRecords st u with _ | ⟨a, tl⟩
  · rw [hp, List.nil_append] at h
    exact Or.inr ⟨rfl, h⟩
  · rw [hp, List.cons_append] at h
    obtain ⟨h1, h2⟩ := List.cons.inj h
    obtain ⟨h3, h4⟩ := List.append_eq_nil.1 h2
    refine Or.inl ⟨?_, h4⟩
    simp only [hp, h1, h3]

/-- A member of a list contributing to a singleton filter is that element. -/
theorem eq_of_mem_filter_singleton {α : Type} {l : List α} {p : α → Bool}
    {a o : α} (ha : a ∈ l) (hpa : p a = true) (h : l.filter p = [o]) : a = o := by
  have hmem : a ∈ l.filter p := List.mem_filter.2 ⟨ha, hpa⟩
  rw [h] at hmem
  simpa using hmem

/-- Filtering a uuid's records out of a list and then filtering for a uuid:
nothing remains for the removed uuid, other uuids are untouched. -/
theorem filter_bne_filter_beq (l : List Order) (w u : String) :
    ((l.filter (fun p => p.order_uuid != w)).filter (fun p => p.order_uuid == u))
      = if u = w then [] else l.filter (fun p => p.order_uuid == u) := by
  rw [List.filter_filter]
  rcases eq_or_ne u w with rfl | huw
  · rw [if_pos rfl]
    rw [List.filter_eq_nil_iff]
    intro a _
    by_cases h : a.order_uuid = u <;> simp [h]
  · rw [if_neg huw]
    apply List.filter_congr
    intro a _
    by_cases h : a.order_uuid = u
    · have h2 : a.order_uuid ≠ w := by
        rw [h]
        exact huw
      simp [h, h2, huw]
    · simp [h]

/-- Replacing one uuid's order does not disturb another uuid's records. -/
theorem filter_replaceFirst_ne (l : List Order) (w u : String) (c : Order)
    (hcw : c.order_uuid = w) (huw : u ≠ w) :
    (replaceFirstByUuid l w c).filter (fun p => p.order_uuid == u)
      = l.filter (fun p => p.order_uuid == u) := by
  induction l with
  | nil => rfl
  | cons a l ih =>
    unfold replaceFirstByUuid
    by_cases haw : a.order_uuid = w
    · rw [if_pos haw]
      have h1 : c.order_uuid ≠ u := by
        rw [hcw]
        exact fun hh => huw hh.symm
      have h2 : a.order_uuid ≠ u := by
        rw [haw]
        exact fun hh => huw hh.symm
      simp [List.filter_cons, h1, h2]
    · rw [if_neg haw]
      by_cases h2 : a.order_uuid = u
      · simpa [List.filter_cons, h2] using ih
      · simpa [List.filter_cons, h2] using ih

/-- Replacing a uuid's first order swaps the head of that uuid's records. -/
theorem filter_replaceFirst_eq (l : List Order) (w : String) (c : Order)
    (hcw : c.order_uuid = w) :
    (replaceFirstByUuid l w c).filter (fun p => p.order_uuid == w)
      = match l.filter (fun p => p.order_uuid == w) with
        | [] => []
        | _ :: tl => c :: tl := by
  induction l with
  | nil => rfl
  | cons a l ih =>
    unfold replaceFirstByUuid
    by_cases haw : a.order_uuid = w
    · rw [if_pos haw]
      simp [List.filter_cons, haw, hcw]
    · rw [if_neg haw]
      simpa [List.filter_cons, haw] using ih

/-- Removing one uuid's first order does not disturb another uuid's records. -/
theorem filter_removeFirst_ne (l : List Order) (w u : String) (huw : u ≠ w) :
    (removeFirstByUuid l w).filter (fun p => p.order_uuid == u)
      = l.filter (fun p => p.order_uuid == u) := by
  induction l with
  | nil => rfl
  | cons a l ih =>
    unfold removeFirstByUuid
    by_cases haw : a.order_uuid = w
    · rw [if_pos haw]
      have h2 : a.order_uuid ≠ u := by
        rw [haw]
        exact fun hh => huw hh.symm
      simp [List.filter_cons, h2]
    · rw [if_neg haw]
      by_cases h2 : a.order_uuid = u
      · simpa [List.filter_cons, h2] using ih
      · simpa [List.filter_cons, h2] using ih

/-- Removing a uuid's first order drops the head of that uuid's records. -/
theorem filter_removeFirst_eq (l : List Order) (w : String) :
    (removeFirstByUuid l w).filter (fun p => p.order_uuid == w)
      = (l.filter (fun p => p.order_uuid == w)).tail := by
  induction l with
  | nil => rfl
  | cons a l ih =>
    unfold removeFirstByUuid
    by_cases haw : a.order_uuid = w
    · rw [if_pos haw]
      simp [List.filter_cons, haw]
    · rw [if_neg haw]
      simpa [List.filter_cons, haw] using ih

/-- Memory effect of a non-ORGANIC close on the pending list. -/
theorem close_pending (st : EngineState) (o₀ : Order) (s : OrderSource) (t : ℤ)
    (hs : s ≠ OrderSource.ORGANIC) :
    (closeLimitOrder st o₀ s t).pending
      = st.pending.filter (fun p => p.order_uuid != o₀.order_uuid) := by
  unfold closeLimitOrder
  rw [if_neg hs]

/-- Memory effect of a non-ORGANIC close on the closed cache. -/
theorem close_closed (st : EngineState) (o₀ : Order) (s : OrderSource) (t : ℤ)
    (hs : s ≠ OrderSource.ORGANIC) :
    (closeLimitOrder st o₀ s t).closedOrders
      = st.closedOrders ++ [{ o₀ with src := s, processed_ms := t }] := by
  unfold closeLimitOrder
  rw [if_neg hs]

/-- A close empties the closed order's uuid from the pending records and
leaves other uuids alone. -/
theorem pendingRecords_close (st : EngineState) (o₀ : Order) (s : OrderSource)
    (t : ℤ) (u : String) (hs : s ≠ OrderSource.ORGANIC) :
    pendingRecords (closeLimitOrder st o₀ s t) u
      = if u = o₀.order_uuid then [] else pendingRecords st u := by
  unfold pendingRecords
  rw [close_pending st o₀ s t hs, filter_bne_filter_beq]

/-- A close appends the closed record to its uuid's closed records and leaves
other uuids alone. -/
theorem closedRecords_close (st : EngineState) (o₀ : Order) (s : OrderSource)
    (t : ℤ) (u : String) (hs : s ≠ OrderSource.ORGANIC) :
    closedRecords (closeLimitOrder st o₀ s t) u
      = closedRecords st u ++
        (if u = o₀.order_uuid
         then [{ o₀ with src := s, processed_ms := t }] else []) := by
  unfold closedRecords
  rw [close_closed st o₀ s t hs, List.filter_append]
  congr 1
  rcases eq_or_ne u o₀.order_uuid with rfl | h
  · simp [List.filter_cons]
  · simp [List.filter_cons, Ne.symm h, h]

/-- Writing to disk does not touch the in-memory lists. -/
theorem writeToDisk_pending (st : EngineState) (c : Order) :
    (writeToDisk st c).pending = st.pending := rfl

/-- Writing to disk does not touch the in-memory lists. -/
theorem writeToDisk_closed (st : EngineState) (c : Order) :
    (writeToDisk st c).closedOrders = st.closedOrders := rfl

/-- Appending a non-empty string strictly extends a string. -/
theorem append_ne_self (s t : String) (ht : t ≠ "") : s ++ t ≠ s := by
  intro h
  apply ht
  have hd : s.data ++ t.data = s.data := by
    have h2 := congrArg String.data h
    simpa [String.data_append] using h2
  have hlen := congrArg List.length hd
  rw [List.length_append] at hlen
  have h3 : t.data = [] := List.eq_nil_of_length_eq_zero (by omega)
  exact String.ext h3

/-- Memory effect of bracket synthesis: the children — all BRACKET_UNFILLED,
each with a uuid strictly extending the parent's — are appended to the
pending list; the closed cache is untouched. -/
theorem createSltp_memory (st : EngineState) (p : Order) (now_ms : ℤ) :
    ∃ C, (createSltpState st p now_ms).pending = st.pending ++ C ∧
      (createSltpState st p now_ms).closedOrders = st.closedOrders ∧
      ∀ c ∈ C, c.src = OrderSource.BRACKET_UNFILLED ∧
        ∃ t, t ≠ "" ∧ c.order_uuid = p.order_uuid ++ t := by
  have hfold : ∀ (L : List Order) (s : EngineState),
      (L.foldl (fun s c =>
        let s1 := writeToDisk s c
        { s1 with pending := s1.pending ++ [c] }) s).pending = s.pending ++ L ∧
      (L.foldl (fun s c =>
        let s1 := writeToDisk s c
        { s1 with pending := s1.pending ++ [c] }) s).closedOrders
        = s.closedOrders := by
    intro L
    induction L with
    | nil => intro s; exact ⟨(List.append_nil _).symm, rfl⟩
    | cons c L ih =>
      intro s
      rw [List.foldl_cons]
      refine ⟨?_, (ih _).2⟩
      rw [(ih _).1]
      simp [writeToDisk, List.append_assoc]
  simp only [createSltpState]
  refine ⟨(p.bracket_orders.getD []).enum.map
      (fun ib => mkBracketChild p ib.1 ib.2 now_ms),
    (hfold _ st).1, (hfold _ st).2, ?_⟩
  intro c hc
  rcases List.mem_map.1 hc with ⟨ib, _, rfl⟩
  refine ⟨rfl, "-bracket-" ++ toString ib.1, ?_, by
    simp [mkBracketChild, String.append_assoc]⟩
  intro hnil
  have h2 := congrArg String.data hnil
  rw [String.data_append] at h2
  have h3 : "-bracket-".data ++ (toString ib.1).data = [] := h2
  exact absurd (List.append_eq_nil.1 h3).1 (by decide)

/-- `_validate_bracket_order` never changes the order's uuid or status. -/
theorem validateBracketOrder_uuid_src (o : Order) (p : Option Position)
    (L : List Order) (r : Option ℚ) (o' : Order)
    (h : validateBracketOrder o p L r = some o') :
    o'.order_uuid = o.order_uuid ∧ o'.src = o.src := by
  simp only [validateBracketOrder] at h
  repeat' split at h
  all_goals
    first
    | exact Option.noConfusion h
    | · cases Option.some.inj h
        constructor
        · first | rfl | (split <;> rfl)
        · first | rfl | (split <;> rfl)

/-- For an unfilled status, `get_fill` and `get_cancel` yield non-ORGANIC
statuses reached by allowed transitions. -/
theorem fill_cancel_src_allowed (s : OrderSource)
    (h : s = OrderSource.LIMIT_UNFILLED ∨ s = OrderSource.BRACKET_UNFILLED) :
    ((OrderSource.get_fill s).getD s ≠ OrderSource.ORGANIC ∧
      allowedTransition s ((OrderSource.get_fill s).getD s)) ∧
    ((OrderSource.get_cancel s).getD s ≠ OrderSource.ORGANIC ∧
      allowedTransition s ((OrderSource.get_cancel s).getD s)) := by
  rcases h with rfl | rfl
  · exact ⟨⟨by decide, Or.inr (Or.inl ⟨rfl, Or.inl rfl⟩)⟩,
      ⟨by decide, Or.inr (Or.inl ⟨rfl, Or.inr rfl⟩)⟩⟩
  · exact ⟨⟨by decide, Or.inr (Or.inr ⟨rfl, Or.inl rfl⟩)⟩,
      ⟨by decide, Or.inr (Or.inr ⟨rfl, Or.inr rfl⟩)⟩⟩

/-- Uuid uniqueness as a bound on the two record lists. -/
theorem uuidUnique_len (st : EngineState) (u : String) :
    uuidUnique st u ↔
      (pendingRecords st u).length + (closedRecords st u).length ≤ 1 := by
  rw [uuidUnique_iff_records]
  unfold memRecords
  rw [List.length_append]

/-- `SyncedRecords` composes along successive sync steps. -/
theorem SyncedRecords_trans {base : List Order} {s m f : EngineState} {u : String}
    (h1 : SyncedRecords base s m u) (h2 : SyncedRecords base m f u) :
    SyncedRecords base s f u := by
  rcases h1 with ⟨hp1, hc1⟩ | ⟨hw1, b1, hb1, hp1, hc1⟩ | ⟨D1, hne1, hp1, hc1, hD1⟩
  · rcases h2 with ⟨hp2, hc2⟩ | ⟨hw2, b2, hb2, hp2, hc2⟩ | ⟨D2, hne2, hp2, hc2, hD2⟩
    · exact Or.inl ⟨by rw [hp2, hp1], by rw [hc2, hc1]⟩
    · exact Or.inr (Or.inl ⟨hw2, b2, hb2, by rw [hp2, hp1], by rw [hc2, hc1]⟩)
    · exact Or.inr (Or.inr ⟨D2, hne2, hp2, by rw [hc2, hc1], hD2⟩)
  · rcases h2 with ⟨hp2, hc2⟩ | ⟨hw2, b2, hb2, hp2, hc2⟩ | ⟨D2, hne2, hp2, hc2, hD2⟩
    · exact Or.inr (Or.inl ⟨hw1, b1, hb1, by rw [hp2, hp1], by rw [hc2, hc1]⟩)
    · refine Or.inr (Or.inl ⟨hw1, b2, hb2, ?_, by rw [hc2, hc1]⟩)
      rw [hp2, hp1]
      cases pendingRecords s u <;> rfl
    · exact Or.inr (Or.inr ⟨D2, hne2, hp2, by rw [hc2, hc1], hD2⟩)
  · rcases h2 with ⟨hp2, hc2⟩ | ⟨hw2, b2, hb2, hp2, hc2⟩ | ⟨D2, hne2, hp2, hc2, hD2⟩
    · exact Or.inr (Or.inr ⟨D1, hne1, by rw [hp2, hp1], by rw [hc2, hc1], hD1⟩)
    · refine Or.inr (Or.inr ⟨D1, hne1, ?_, by rw [hc2, hc1], hD1⟩)
      rw [hp2, hp1]
    · refine Or.inr (Or.inr ⟨D1 ++ D2, ?_, hp2, by rw [hc2, hc1, List.append_assoc], ?_⟩)
      · intro h
        exact hne1 (List.append_eq_nil.1 h).1
      · intro d hd
        rcases List.mem_append.1 hd with hd1 | hd2
        · exact hD1 d hd1
        · exact hD2 d hd2

/-- One step of the sync fold preserves the `SyncedRecords` relation (relative
to the state it starts from). -/
theorem syncStep_records (pos : Position) (now_ms : ℤ) (u : String)
    (base : List Order) (a : Order) (ha : a ∈ base)
    (hsrc : a.src = OrderSource.BRACKET_UNFILLED) (s : EngineState) :
    SyncedRecords base s
      (if pos.unfilled_order_uuids.contains a.order_uuid then s
       else
         match validateBracketOrder a (some pos) [] (some pos.initial_entry_price) with
         | none => closeLimitOrder s a OrderSource.BRACKET_CANCELLED now_ms
         | some o' =>
           let s1 := writeToDisk s o'
           { s1 with pending := replaceFirstByUuid s1.pending a.order_uuid o' }) u := by
  by_cases hc : pos.unfilled_order_uuids.contains a.order_uuid = true
  · rw [if_pos hc]
    exact Or.inl ⟨rfl, rfl⟩
  · rw [if_neg hc]
    rcases hv : validateBracketOrder a (some pos) [] (some pos.initial_entry_price)
      with _ | b
    · rcases eq_or_ne u a.order_uuid with heq | hne
      · subst heq
        refine Or.inr (Or.inr
          ⟨[{ a with src := OrderSource.BRACKET_CANCELLED, processed_ms := now_ms }],
            by simp, ?_, ?_, ?_⟩)
        · rw [pendingRecords_close s a OrderSource.BRACKET_CANCELLED now_ms
            a.order_uuid (by decide), if_pos rfl]
        · rw [closedRecords_close s a OrderSource.BRACKET_CANCELLED now_ms
            a.order_uuid (by decide), if_pos rfl]
        · intro d hd
          rcases List.mem_cons.1 hd with rfl | hcon
          · exact ⟨⟨a, ha, rfl, hsrc⟩, rfl⟩
          · exact absurd hcon (List.not_mem_nil d)
      · refine Or.inl ⟨?_, ?_⟩
        · rw [pendingRecords_close s a OrderSource.BRACKET_CANCELLED now_ms
            u (by decide), if_neg hne]
        · rw [closedRecords_close s a OrderSource.BRACKET_CANCELLED now_ms
            u (by decide), if_neg hne, List.append_nil]
    · obtain ⟨hbu, hbs⟩ := validateBracketOrder_uuid_src a (some pos) []
        (some pos.initial_entry_price) b hv
      rcases eq_or_ne u a.order_uuid with heq | hne
      · subst heq
        refine Or.inr (Or.inl ⟨⟨a, ha, rfl, hsrc⟩, b, by rw [hbs, hsrc], ?_, rfl⟩)
        show (replaceFirstByUuid s.pending a.order_uuid b).filter
            (fun p => p.order_uuid == a.order_uuid) = _
        rw [filter_replaceFirst_eq s.pending a.order_uuid b hbu]
        rfl
      · refine Or.inl ⟨?_, rfl⟩
        show (replaceFirstByUuid s.pending a.order_uuid b).filter
            (fun p => p.order_uuid == u) = _
        rw [filter_replaceFirst_ne s.pending a.order_uuid u b hbu hne]
        rfl

/-- The sync fold only rewrites uuid records as `SyncedRecords` allows. -/
theorem syncFold_records (pos : Position) (now_ms : ℤ) (u : String)
    (base : List Order) :
    ∀ (L : List Order) (s : EngineState),
      (∀ a ∈ L, a ∈ base ∧ a.src = OrderSource.BRACKET_UNFILLED) →
      SyncedRecords base s (syncFold pos now_ms L s) u := by
  intro L
  induction L with
  | nil =>
    intro s _
    exact Or.inl ⟨rfl, rfl⟩
  | cons a L ih =>
    intro s hL
    obtain ⟨ha, hasrc⟩ := hL a (List.mem_cons_self a L)
    have hstep := syncStep_records pos now_ms u base a ha hasrc s
    have heq : syncFold pos now_ms (a :: L) s
        = syncFold pos now_ms L
            (if pos.unfilled_order_uuids.contains a.order_uuid then s
             else
               match validateBracketOrder a (some pos) []
                   (some pos.initial_entry_price) with
               | none => closeLimitOrder s a OrderSource.BRACKET_CANCELLED now_ms
               | some o' =>
                 let s1 := writeToDisk s o'
                 { s1 with pending := replaceFirstByUuid s1.pending a.order_uuid o' }) := by
      rw [syncFold, List.foldl_cons]
      rfl
    rw [heq]
    exact SyncedRecords_trans hstep
      (ih _ (fun x hx => hL x (List.mem_cons_of_mem a hx)))

/-- `_sync_pending_bracket_orders` only rewrites uuid records as
`SyncedRecords` allows. -/
theorem sync_records (st : EngineState) (pos : Position) (tp : String)
    (now_ms : ℤ) (u : String) :
    SyncedRecords st.pending st (syncPendingBracketOrders st pos tp now_ms) u := by
  have h : syncPendingBracketOrders st pos tp now_ms
      = syncFold pos now_ms
          (st.pending.filter
            (fun o => o.trade_pair == tp && o.src == OrderSource.BRACKET_UNFILLED)) st :=
    rfl
  rw [h]
  apply syncFold_records
  intro a ha
  have hm := List.mem_filter.1 ha
  refine ⟨hm.1, ?_⟩
  have h2 := hm.2
  simp only [Bool.and_eq_true, beq_iff_eq] at h2
  exact h2.2

/-- `PreCloseRecords` holds reflexively. -/
theorem preClose_refl (st : EngineState) (u : String) : PreCloseRecords st st u :=
  Or.inl ⟨[], (List.append_nil _).symm, rfl⟩

/-- A bracket-sync evolution is a pre-close evolution. -/
theorem synced_preClose {st X : EngineState} {u : String}
    (h : SyncedRecords st.pending st X u) : PreCloseRecords st X u := by
  rcases h with ⟨hp, hc⟩ | ⟨hw, b, hb, hp, hc⟩ | ⟨D, hne, hp, hc, hD⟩
  · exact Or.inl ⟨[], by rw [hp, List.append_nil], hc⟩
  · exact Or.inr (Or.inl ⟨hw, b, [], hb, by rw [hp, List.append_nil], hc⟩)
  · exact Or.inr (Or.inr ⟨D, [], hne, hp, hc, hD⟩)

/-- Appending synthesized bracket children preserves the pre-close forms. -/
theorem preClose_createSltp {st X : EngineState} {u : String}
    (h : PreCloseRecords st X u) (p : Order) (t : ℤ) :
    PreCloseRecords st (createSltpState X p t) u := by
  obtain ⟨C, hpend, hclosed, -⟩ := createSltp_memory X p t
  have hp2 : pendingRecords (createSltpState X p t) u
      = pendingRecords X u ++ C.filter (fun q => q.order_uuid == u) := by
    unfold pendingRecords
    rw [hpend, List.filter_append]
  have hc2 : closedRecords (createSltpState X p t) u = closedRecords X u := by
    unfold closedRecords
    rw [hclosed]
  rcases h with ⟨E, hp, hc⟩ | ⟨hw, b, E, hb, hp, hc⟩ | ⟨D, E, hne, hp, hc, hD⟩
  · exact Or.inl ⟨E ++ C.filter (fun q => q.order_uuid == u),
      by rw [hp2, hp, List.append_assoc], by rw [hc2, hc]⟩
  · exact Or.inr (Or.inl ⟨hw, b, E ++ C.filter (fun q => q.order_uuid == u), hb,
      by rw [hp2, hp, List.append_assoc], by rw [hc2, hc]⟩)
  · exact Or.inr (Or.inr ⟨D, E ++ C.filter (fun q => q.order_uuid == u), hne,
      by rw [hp2, hp], by rw [hc2, hc], hD⟩)

/-- The final close of a fill turns a pre-close evolution into the fill's
record-level outcome. -/
theorem preClose_close_fill (st X : EngineState) (o₀ o₁ : Order)
    (s₁ : OrderSource) (t : ℤ) (u : String)
    (huid : o₁.order_uuid = o₀.order_uuid)
    (hs : s₁ ≠ OrderSource.ORGANIC)
    (hall : allowedTransition o₀.src s₁)
    (h : PreCloseRecords st X u) :
    FillRecords o₀ st (closeLimitOrder X o₁ s₁ t) u := by
  rcases eq_or_ne u o₀.order_uuid with heq | hne
  · have hD : ∃ D, closedRecords X u = closedRecords st u ++ D ∧
        ∀ d ∈ D, (∃ a ∈ st.pending, a.order_uuid = u ∧
            a.src = OrderSource.BRACKET_UNFILLED) ∧
          d.src = OrderSource.BRACKET_CANCELLED := by
      rcases h with ⟨E, hp, hc⟩ | ⟨hw, b, E, hb, hp, hc⟩ | ⟨D, E, hne2, hp, hc, hD⟩
      · exact ⟨[], by rw [hc, List.append_nil],
          fun d hd => absurd hd (List.not_mem_nil d)⟩
      · exact ⟨[], by rw [hc, List.append_nil],
          fun d hd => absurd hd (List.not_mem_nil d)⟩
      · exact ⟨D, hc, hD⟩
    obtain ⟨D, hcX, hDprops⟩ := hD
    refine Or.inl ⟨heq, ?_, D, { o₁ with src := s₁, processed_ms := t }, ?_,
      hall, hDprops⟩
    · rw [pendingRecords_close X o₁ s₁ t u hs, if_pos (heq.trans huid.symm)]
    · rw [closedRecords_close X o₁ s₁ t u hs, if_pos (heq.trans huid.symm), hcX]
  · refine Or.inr ⟨hne, ?_⟩
    have hne1 : u ≠ o₁.order_uuid := by
      rw [huid]
      exact hne
    have hp : pendingRecords (closeLimitOrder X o₁ s₁ t) u = pendingRecords X u := by
      rw [pendingRecords_close X o₁ s₁ t u hs, if_neg hne1]
    have hc : closedRecords (closeLimitOrder X o₁ s₁ t) u = closedRecords X u := by
      rw [closedRecords_close X o₁ s₁ t u hs, if_neg hne1, List.append_nil]
    rcases h with ⟨E, hpX, hcX⟩ | ⟨hw, b, E, hb, hpX, hcX⟩ | ⟨D, E, hne2, hpX, hcX, hD⟩
    · exact Or.inl ⟨E, by rw [hp, hpX], by rw [hc, hcX]⟩
    · exact Or.inr (Or.inl ⟨hw, b, E, hb, by rw [hp, hpX], by rw [hc, hcX]⟩)
    · exact Or.inr (Or.inr ⟨D, E, hne2, by rw [hp, hpX], by rw [hc, hcX], hD⟩)

/-- `_fill_limit_order_with_price_source` realizes the record-level fill
outcome for every uuid, when the filled order carries an unfilled status. -/
theorem fill_records (st : EngineState) (o₀ : Order) (ps : PriceSource)
    (fp : Option ℚ) (outc : MarketOutcome) (ext : Bool) (now_ms : ℤ) (u : String)
    (hsrc : o₀.src = OrderSource.LIMIT_UNFILLED ∨
      o₀.src = OrderSource.BRACKET_UNFILLED) :
    FillRecords o₀ st
      (fillLimitOrderWithPriceSource st o₀ ps fp outc ext now_ms).state u := by
  obtain ⟨⟨hfO, hfA⟩, hcO, hcA⟩ := fill_cancel_src_allowed o₀.src hsrc
  rcases hap : appliedOrderForFill o₀ with _ | ap
  · simp only [fillLimitOrderWithPriceSource, hap]
    exact preClose_close_fill st st o₀ o₀ _ ps.start_ms u rfl hcO hcA
      (preClose_refl st u)
  · rcases outc with m | _ | ⟨filled, posn⟩
    · simp only [fillLimitOrderWithPriceSource, hap]
      exact preClose_close_fill st st o₀ o₀ _ ps.start_ms u rfl hcO hcA
        (preClose_refl st u)
    · simp only [fillLimitOrderWithPriceSource, hap]
      exact preClose_close_fill st st o₀ o₀ _ ps.start_ms u rfl hcO hcA
        (preClose_refl st u)
    · simp only [fillLimitOrderWithPriceSource, hap]
      have hpre : PreCloseRecords st
          (if o₀.execution_type = ExecutionType.limit ∧
              posn.is_open_position = true ∧ posn.num_orders = 1
           then syncPendingBracketOrders
             { st with lastFill := lastFillUpdate st.lastFill o₀.trade_pair ps.start_ms }
             posn o₀.trade_pair now_ms
           else
             { st with
               lastFill := lastFillUpdate st.lastFill o₀.trade_pair ps.start_ms }) u := by
        split
        · exact synced_preClose
            (sync_records
              { st with lastFill := lastFillUpdate st.lastFill o₀.trade_pair ps.start_ms }
              posn o₀.trade_pair now_ms u)
        · exact preClose_refl st u
      split
      · split
        · exact preClose_close_fill st _ o₀ _ _ ps.start_ms u rfl hfO hfA
            (preClose_createSltp hpre _ now_ms)
        · exact preClose_close_fill st _ o₀ _ _ ps.start_ms u rfl hfO hfA hpre
        · exact preClose_close_fill st _ o₀ _ _ ps.start_ms u rfl hcO hcA hpre
      · exact preClose_close_fill st _ o₀ _ _ ps.start_ms u rfl hfO hfA hpre

/-- An immediate (MARKET/ORGANIC) fill call leaves the in-memory lists of its
input state untouched: every close on this path carries the ORGANIC status. -/
theorem fill_memory_organic (st : EngineState) (o₂ : Order) (ps : PriceSource)
    (fp : Option ℚ) (outc : MarketOutcome) (ext : Bool) (now_ms : ℤ)
    (hsrc : o₂.src = OrderSource.ORGANIC)
    (hexec : o₂.execution_type = ExecutionType.market) :
    (fillLimitOrderWithPriceSource st o₂ ps fp outc ext now_ms).state.pending
        = st.pending ∧
    (fillLimitOrderWithPriceSource st o₂ ps fp outc ext now_ms).state.closedOrders
        = st.closedOrders := by
  have hap : appliedOrderForFill o₂ = some o₂ := by
    unfold appliedOrderForFill
    rw [if_neg]
    rw [hexec]
    exact fun h => ExecutionType.noConfusion h
  have hcanc : (OrderSource.get_cancel o₂.src).getD o₂.src = OrderSource.ORGANIC := by
    rw [hsrc]
    rfl
  have hfill : (OrderSource.get_fill o₂.src).getD o₂.src = OrderSource.ORGANIC := by
    rw [hsrc]
    rfl
  have hcl : ∀ (X : EngineState) (oX : Order),
      closeLimitOrder X oX OrderSource.ORGANIC ps.start_ms = X := by
    intro X oX
    unfold closeLimitOrder
    rw [if_pos rfl]
  rcases outc with m | _ | ⟨filled, posn⟩
  · simp only [fillLimitOrderWithPriceSource, hap, hcanc, hcl]
    exact ⟨trivial, trivial⟩
  · simp only [fillLimitOrderWithPriceSource, hap, hcanc, hcl]
    exact ⟨trivial, trivial⟩
  · simp only [fillLimitOrderWithPriceSource, hap]
    have hcond : ¬(o₂.execution_type = ExecutionType.limit ∧
        posn.is_open_position = true ∧ posn.num_orders = 1) := by
      rw [hexec]
      rintro ⟨h, -⟩
      exact ExecutionType.noConfusion h
    have hcond2 : ¬(o₂.execution_type = ExecutionType.limit ∧
        o₂.bracket_orders ≠ none) := by
      rw [hexec]
      rintro ⟨h, -⟩
      exact ExecutionType.noConfusion h
    rw [if_neg hcond, if_neg hcond2, hfill, hcl]
    exact ⟨rfl, rfl⟩

/-- The cancel fold empties the touched uuid's pending records and appends the
corresponding cancelled records to its closed records; untouched uuids keep
their records. -/
theorem cancelFold_records (now_ms : ℤ) (u : String) :
    ∀ (K : List Order) (s : EngineState),
      (∀ a ∈ K, a.src = OrderSource.LIMIT_UNFILLED ∨
        a.src = OrderSource.BRACKET_UNFILLED) →
      pendingRecords (cancelFold now_ms K s) u
        = (if K.filter (fun q => q.order_uuid == u) = []
           then pendingRecords s u else []) ∧
      closedRecords (cancelFold now_ms K s) u
        = closedRecords s u ++ (K.filter (fun q => q.order_uuid == u)).map
            (fun q => { q with
              src := (OrderSource.get_cancel q.src).getD q.src,
              processed_ms := now_ms }) := by
  intro K
  induction K with
  | nil =>
    intro s _
    exact ⟨by simp [cancelFold], by simp [cancelFold]⟩
  | cons a K ih =>
    intro s hK
    have hs : (OrderSource.get_cancel a.src).getD a.src ≠ OrderSource.ORGANIC := by
      rcases hK a (List.mem_cons_self a K) with h | h <;> rw [h] <;> decide
    have hstep : cancelFold now_ms (a :: K) s
        = cancelFold now_ms K
            (closeLimitOrder s a ((OrderSource.get_cancel a.src).getD a.src) now_ms) := by
      rw [cancelFold, List.foldl_cons]
      rfl
    rw [hstep]
    obtain ⟨ihp, ihc⟩ := ih _ (fun x hx => hK x (List.mem_cons_of_mem a hx))
    by_cases hau : u = a.order_uuid
    · have hfa : (a.order_uuid == u) = true := beq_iff_eq.2 hau.symm
      have hfc : (a :: K).filter (fun q => q.order_uuid == u)
          = a :: K.filter (fun q => q.order_uuid == u) := by
        rw [List.filter_cons, if_pos hfa]
      constructor
      · rw [ihp, hfc, if_neg (List.cons_ne_nil _ _)]
        split
        · rw [pendingRecords_close s a _ now_ms u hs, if_pos hau]
        · rfl
      · rw [ihc, closedRecords_close s a _ now_ms u hs, if_pos hau, hfc,
          List.map_cons, List.append_assoc]
        rfl
    · have hfa : (a.order_uuid == u) = false := by
        simp only [beq_eq_false_iff_ne, ne_eq]
        exact fun h => hau h.symm
      have hfc : (a :: K).filter (fun q => q.order_uuid == u)
          = K.filter (fun q => q.order_uuid == u) := by
        rw [List.filter_cons, if_neg (by simp [hfa])]
      constructor
      · rw [ihp, hfc, pendingRecords_close s a _ now_ms u hs, if_neg hau]
      · rw [ihc, closedRecords_close s a _ now_ms u hs, if_neg hau,
          List.append_nil, hfc]

/-- An open status is one of the two unfilled statuses. -/
theorem is_open_cases (s : OrderSource) (h : s.is_open = true) :
    s = OrderSource.LIMIT_UNFILLED ∨ s = OrderSource.BRACKET_UNFILLED := by
  cases s <;>
    first
    | exact Or.inl rfl
    | exact Or.inr rfl
    | exact absurd h (by decide)

/-- A unique uuid resolving to `o` has record lists of total length one. -/
theorem records_len_one (st : EngineState) (u : String) (o : Order)
    (hu : uuidUnique st u) (ho : findOrderInState st u = some o) :
    (pendingRecords st u).length + (closedRecords st u).length = 1 := by
  have hsing := memRecords_eq_singleton st u o hu ho
  have h2 := congrArg List.length hsing
  unfold memRecords at h2
  rw [List.length_append] at h2
  simpa using h2

/-- With no closed record, the unique record is the pending one. -/
theorem pending_singleton (st : EngineState) (u : String) (o : Order)
    (hu : uuidUnique st u) (ho : findOrderInState st u = some o)
    (hC : closedRecords st u = []) : pendingRecords st u = [o] := by
  have hsing := memRecords_eq_singleton st u o hu ho
  unfold memRecords at hsing
  rw [hC, List.append_nil] at hsing
  exact hsing

/-- Any pending order carrying the unique uuid is the resolved record. -/
theorem mem_pending_eq (st : EngineState) (u : String) (o a : Order)
    (hu : uuidUnique st u) (ho : findOrderInState st u = some o)
    (ha : a ∈ st.pending) (hau : a.order_uuid = u) : a = o := by
  have hsing := memRecords_eq_singleton st u o hu ho
  have hamem : a ∈ memRecords st u := by
    unfold memRecords
    exact List.mem_append.2 (Or.inl (List.mem_filter.2 ⟨ha, beq_iff_eq.2 hau⟩))
  rw [hsing] at hamem
  simpa using hamem

/-- Unchanged records resolve a uuid to the same order. -/
theorem same_records_same_order (st f : EngineState) (u : String) (o o' : Order)
    (hp : pendingRecords f u = pendingRecords st u)
    (hc : closedRecords f u = closedRecords st u)
    (ho : findOrderInState st u = some o)
    (ho' : findOrderInState f u = some o') :
    o' = o := by
  rw [findOrderInState_eq_head] at ho ho'
  unfold memRecords at ho ho'
  rw [hp, hc, ho] at ho'
  exact (Option.some.inj ho').symm

/-- Consuming a fill's record-level outcome: under uuid uniqueness before and
after the fill, the resolved record moves by an allowed transition. -/
theorem fillRecords_transition (o₀ : Order) (st f : EngineState) (u : String)
    (o o' : Order) (hF : FillRecords o₀ st f u)
    (hu : uuidUnique st u) (hu' : uuidUnique f u)
    (ho : findOrderInState st u = some o) (ho' : findOrderInState f u = some o')
    (hsame : u = o₀.order_uuid → o₀.src = o.src) :
    allowedTransition o.src o'.src := by
  have hlen' := (uuidUnique_len f u).1 hu'
  rcases hF with ⟨hequ, hpf, D, c, hcf, hall, hD⟩ | ⟨hnequ, hPre⟩
  · have hl : (closedRecords st u).length + (D.length + 1) ≤ 1 := by
      rw [hpf, hcf] at hlen'
      simpa [List.length_append] using hlen'
    have hCnil : closedRecords st u = [] :=
      List.eq_nil_of_length_eq_zero (by omega)
    have hDnil : D = [] := List.eq_nil_of_length_eq_zero (by omega)
    have hmem : memRecords f u = [c] := by
      unfold memRecords
      rw [hpf, hcf, hCnil, hDnil]
      rfl
    have ho'c : o' = c := by
      rw [findOrderInState_eq_head, hmem] at ho'
      exact (Option.some.inj ho').symm
    rw [ho'c, ← hsame hequ]
    exact hall
  · rcases hPre with ⟨E, hp, hc⟩ | ⟨⟨a, ha, hauuid, hasrc⟩, b, E, hbsrc, hp, hc⟩ |
      ⟨D, E, hDne, hp, hc, hD⟩
    · have hE : E = [] := by
        have h2 := hlen'
        rw [hp, hc, List.length_append] at h2
        have h3 := records_len_one st u o hu ho
        exact List.eq_nil_of_length_eq_zero (by omega)
      rw [hE, List.append_nil] at hp
      rw [same_records_same_order st f u o o' hp hc ho ho']
      exact Or.inl rfl
    · rcases memRecords_singleton_split st u o
        (memRecords_eq_singleton st u o hu ho) with ⟨hP, hC⟩ | ⟨hP, hC⟩
      · have hao : a = o := mem_pending_eq st u o a hu ho ha hauuid
        have hpf2 : pendingRecords f u = b :: E := by
          rw [hp, hP]
          rfl
        have hE : E = [] := by
          have h2 := hlen'
          rw [hpf2, hc, hC] at h2
          simp only [List.length_cons, List.length_nil] at h2
          exact List.eq_nil_of_length_eq_zero (by omega)
        have hmem : memRecords f u = [b] := by
          unfold memRecords
          rw [hpf2, hE, hc, hC]
          rfl
        have ho'b : o' = b := by
          rw [findOrderInState_eq_head, hmem] at ho'
          exact (Option.some.inj ho').symm
        refine Or.inl ?_
        rw [ho'b, hbsrc, ← hao, hasrc]
      · have hpf2 : pendingRecords f u = E := by
          rw [hp, hP]
          rfl
        have hE : E = [] := by
          have h2 := hlen'
          rw [hpf2, hc, hC] at h2
          simp only [List.length_cons, List.length_nil] at h2
          exact List.eq_nil_of_length_eq_zero (by omega)
        have hmem : memRecords f u = [o] := by
          unfold memRecords
          rw [hpf2, hE, hc, hC]
          rfl
        have ho'o : o' = o := by
          rw [findOrderInState_eq_head, hmem] at ho'
          exact (Option.some.inj ho').symm
        rw [ho'o]
        exact Or.inl rfl
    · have hlen2 : E.length + ((closedRecords st u).length + D.length) ≤ 1 := by
        have h2 := hlen'
        rw [hp, hc, List.length_append] at h2
        exact h2
      have hDpos : 1 ≤ D.length := by
        rcases D with _ | ⟨d, D'⟩
        · exact absurd rfl hDne
        · simp
      have hCnil : closedRecords st u = [] :=
        List.eq_nil_of_length_eq_zero (by omega)
      have hEnil : E = [] := List.eq_nil_of_length_eq_zero (by omega)
      rcases D with _ | ⟨d, D'⟩
      · exact absurd rfl hDne
      · have hD'nil : D' = [] := by
          apply List.eq_nil_of_length_eq_zero
          rw [hCnil] at hlen2
          simp only [List.length_cons, List.length_nil] at hlen2 hDpos ⊢
          omega
        obtain ⟨⟨a, ha, hauuid, hasrc⟩, hdsrc⟩ := hD d (List.mem_cons_self d D')
        have hao : a = o := mem_pending_eq st u o a hu ho ha hauuid
        have hmem : memRecords f u = [d] := by
          unfold memRecords
          rw [hp, hc, hEnil, hCnil, hD'nil]
          rfl
        have ho'd : o' = d := by
          rw [findOrderInState_eq_head, hmem] at ho'
          exact (Option.some.inj ho').symm
        refine Or.inr (Or.inr ⟨?_, Or.inr ?_⟩)
        · rw [← hao]
          exact hasrc
        · rw [ho'd]
          exact hdsrc

/-- Record-level effect of the immediate-fill step of `process_limit_order`:
the MARKET/ORGANIC fill leaves the in-memory records of its input state
untouched. -/
theorem immediate_records (stPop : EngineState) (o1 : Order) (ps0 : PriceSource)
    (outc : MarketOutcome) (ext : Bool) (now_ms : ℤ) (u : String) :
    pendingRecords (fillLimitOrderWithPriceSource stPop
        { o1 with execution_type := ExecutionType.market, src := OrderSource.ORGANIC }
        ps0 none outc ext now_ms).state u = pendingRecords stPop u ∧
    closedRecords (fillLimitOrderWithPriceSource stPop
        { o1 with execution_type := ExecutionType.market, src := OrderSource.ORGANIC }
        ps0 none outc ext now_ms).state u = closedRecords stPop u := by
  have hfm := fill_memory_organic stPop
    { o1 with execution_type := ExecutionType.market, src := OrderSource.ORGANIC }
    ps0 none outc ext now_ms rfl rfl
  constructor
  · unfold pendingRecords
    rw [hfm.1]
  · unfold closedRecords
    rw [hfm.2]

/-- Record-level effect of `process_limit_order` (submit or edit): the closed
cache is never touched, and a uuid's pending records are untouched unless it
is the submitted/edited uuid, in which case the fresh unfilled order is
appended (submit), replaces the first record (edit), or the record is popped
for an immediate fill (edit). -/
theorem processLimitOrder_records (st : EngineState) (sig : SignalInput)
    (et : ExecutionType) (ie : Bool) (mx : Nat) (ps : List PriceSource)
    (mo : Bool) (pos : Option Position) (outc : MarketOutcome) (ext : Bool)
    (now_ms : ℤ) (u : String) :
    (pendingRecords
        (processLimitOrder st sig et ie mx ps mo pos outc ext now_ms).state u
        = pendingRecords st u ∧
     closedRecords
        (processLimitOrder st sig et ie mx ps mo pos outc ext now_ms).state u
        = closedRecords st u) ∨
    (u = sig.order_uuid ∧
     closedRecords
        (processLimitOrder st sig et ie mx ps mo pos outc ext now_ms).state u
        = closedRecords st u ∧
     ((ie = false ∧ ∃ c,
        pendingRecords
            (processLimitOrder st sig et ie mx ps mo pos outc ext now_ms).state u
          = pendingRecords st u ++ [c]) ∨
      (ie = true ∧ ∃ c,
        c.src = (if et = ExecutionType.bracket then OrderSource.BRACKET_UNFILLED
                 else OrderSource.LIMIT_UNFILLED) ∧
        pendingRecords
            (processLimitOrder st sig et ie mx ps mo pos outc ext now_ms).state u
          = (match pendingRecords st u with | [] => [] | _ :: tl => c :: tl)) ∨
      (ie = true ∧
        pendingRecords
            (processLimitOrder st sig et ie mx ps mo pos outc ext now_ms).state u
          = (pendingRecords st u).tail))) := by
  simp only [processLimitOrder]
  split
  · exact Or.inl ⟨rfl, rfl⟩
  · split
    · exact Or.inl ⟨rfl, rfl⟩
    · rename_i o1 hv
      have ho1 : o1.order_uuid = sig.order_uuid ∧
          o1.src = (if et = ExecutionType.bracket then OrderSource.BRACKET_UNFILLED
                    else OrderSource.LIMIT_UNFILLED) := by
        by_cases hbr : et = ExecutionType.bracket
        · simp only [if_pos hbr] at hv
          obtain ⟨h1, h2⟩ := validateBracketOrder_uuid_src _ _ _ _ _ hv
          rw [if_pos hbr]
          exact ⟨h1, h2⟩
        · simp only [if_neg hbr] at hv
          rw [if_neg hbr]
          by_cases hlim : et = ExecutionType.limit
          · simp only [if_pos hlim] at hv
            split at hv
            · cases Option.some.inj hv
              exact ⟨rfl, rfl⟩
            · exact Option.noConfusion hv
          · simp only [if_neg hlim] at hv
            cases Option.some.inj hv
            exact ⟨rfl, rfl⟩
      have hstore :
          (pendingRecords
              (if ie = true
               then { writeToDisk st o1 with
                      pending := replaceFirstByUuid (writeToDisk st o1).pending
                        sig.order_uuid o1 }
               else { writeToDisk st o1 with
                      pending := (writeToDisk st o1).pending ++ [o1] }) u
            = pendingRecords st u ∧
           closedRecords
              (if ie = true
               then { writeToDisk st o1 with
                      pending := replaceFirstByUuid (writeToDisk st o1).pending
                        sig.order_uuid o1 }
               else { writeToDisk st o1 with
                      pending := (writeToDisk st o1).pending ++ [o1] }) u
            = closedRecords st u) ∨
          (u = sig.order_uuid ∧
           closedRecords
              (if ie = true
               then { writeToDisk st o1 with
                      pending := replaceFirstByUuid (writeToDisk st o1).pending
                        sig.order_uuid o1 }
               else { writeToDisk st o1 with
                      pending := (writeToDisk st o1).pending ++ [o1] }) u
            = closedRecords st u ∧
           ((ie = false ∧ ∃ c,
              pendingRecords
                  (if ie = true
                   then { writeToDisk st o1 with
                          pending := replaceFirstByUuid (writeToDisk st o1).pending
                            sig.order_uuid o1 }
                   else { writeToDisk st o1 with
                          pending := (writeToDisk st o1).pending ++ [o1] }) u
                = pendingRecords st u ++ [c]) ∨
            (ie = true ∧ ∃ c,
              c.src = (if et = ExecutionType.bracket then OrderSource.BRACKET_UNFILLED
                       else OrderSource.LIMIT_UNFILLED) ∧
              pendingRecords
                  (if ie = true
                   then { writeToDisk st o1 with
                          pending := replaceFirstByUuid (writeToDisk st o1).pending
                            sig.order_uuid o1 }
                   else { writeToDisk st o1 with
                          pending := (writeToDisk st o1).pending ++ [o1] }) u
                = (match pendingRecords st u with | [] => [] | _ :: tl => c :: tl)) ∨
            (ie = true ∧
              pendingRecords
                  (if ie = true
                   then { writeToDisk st o1 with
                          pending := replaceFirstByUuid (writeToDisk st o1).pending
                            sig.order_uuid o1 }
                   else { writeToDisk st o1 with
                          pending := (writeToDisk st o1).pending ++ [o1] }) u
                = (pendingRecords st u).tail))) := by
        cases ie
        · by_cases huw : u = sig.order_uuid
          · refine Or.inr ⟨huw, rfl, Or.inl ⟨rfl, o1, ?_⟩⟩
            show ((writeToDisk st o1).pending ++ [o1]).filter
                (fun p => p.order_uuid == u) = pendingRecords st u ++ [o1]
            rw [List.filter_append]
            have h1 : [o1].filter (fun p => p.order_uuid == u) = [o1] := by
              rw [List.filter_cons, if_pos (beq_iff_eq.2 (ho1.1.trans huw.symm))]
              rfl
            rw [h1]
            rfl
          · refine Or.inl ⟨?_, rfl⟩
            show ((writeToDisk st o1).pending ++ [o1]).filter
                (fun p => p.order_uuid == u) = pendingRecords st u
            rw [List.filter_append]
            have h1 : [o1].filter (fun p => p.order_uuid == u) = [] := by
              rw [List.filter_cons, if_neg]
              · rfl
              · simp only [beq_iff_eq, ho1.1]
                exact fun h => huw h.symm
            rw [h1, List.append_nil]
            rfl
        · by_cases huw : u = sig.order_uuid
          · refine Or.inr ⟨huw, rfl, Or.inr (Or.inl ⟨rfl, o1, ho1.2, ?_⟩)⟩
            subst huw
            show (replaceFirstByUuid (writeToDisk st o1).pending sig.order_uuid o1).filter
                (fun p => p.order_uuid == sig.order_uuid) = _
            exact filter_replaceFirst_eq (writeToDisk st o1).pending sig.order_uuid
              o1 ho1.1
          · refine Or.inl ⟨?_, rfl⟩
            show (replaceFirstByUuid (writeToDisk st o1).pending sig.order_uuid o1).filter
                (fun p => p.order_uuid == u) = pendingRecords st u
            exact filter_replaceFirst_ne (writeToDisk st o1).pending sig.order_uuid
              u o1 ho1.1 huw
      rcases ps with _ | ⟨ps0, psrest⟩
      · exact hstore
      · rcases htr : (if mo = true then evaluateTriggerPrice o1 pos ps0 else none)
          with _ | trig
        · simp only [htr]
          exact hstore
        · simp only [htr]
          obtain ⟨hip, hic⟩ := immediate_records
            (if ie = true
             then { st with pending := removeFirstByUuid st.pending sig.order_uuid }
             else st) o1 ps0 outc ext now_ms u
          cases ie
          · exact Or.inl ⟨hip, hic⟩
          · by_cases huw : u = sig.order_uuid
            · refine Or.inr ⟨huw, hic, Or.inr (Or.inr ⟨rfl, ?_⟩)⟩
              rw [hip]
              subst huw
              show (removeFirstByUuid st.pending sig.order_uuid).filter
                  (fun p => p.order_uuid == sig.order_uuid) = _
              exact filter_removeFirst_eq st.pending sig.order_uuid
            · refine Or.inl ⟨?_, hic⟩
              rw [hip]
              show (removeFirstByUuid st.pending sig.order_uuid).filter
                  (fun p => p.order_uuid == u) = pendingRecords st u
              exact filter_removeFirst_ne st.pending sig.order_uuid u huw

/-- Matched cancel candidates are pending with an unfilled status. -/
theorem findOrdersToCancel_mem (st : EngineState) (w : String) (a : Order)
    (ha : a ∈ findOrdersToCancelByUuid st w) :
    a ∈ st.pending ∧ (a.src = OrderSource.LIMIT_UNFILLED ∨
      a.src = OrderSource.BRACKET_UNFILLED) := by
  have h := List.mem_filter.1 ha
  refine ⟨h.1, ?_⟩
  have h2 := h.2
  simp only [Bool.or_eq_true, Bool.and_eq_true, beq_iff_eq] at h2
  rcases h2 with ⟨-, h3⟩ | ⟨h3, -⟩
  · exact Or.inl h3
  · exact Or.inr h3

/-- The state selected by one sweep-order pass. -/
theorem sweepStep_state (st : EngineState) (o₀ : Order) (ps : List PriceSource)
    (pos : Option Position) (outc : MarketOutcome) (ext : Bool) (now : ℤ) :
    (sweepOrderStep st o₀ ps pos outc ext now).2
      = if (!o₀.src.is_open) = true then st
        else if o₀.src = OrderSource.BRACKET_UNFILLED ∧ pos = none ∧
            getUnfilledOrders st o₀.trade_pair (some o₀.processed_ms) = [] then
          closeLimitOrder st o₀ OrderSource.BRACKET_CANCELLED now
        else (attemptFillLimitOrder st o₀.order_uuid ps pos outc ext now).state := by
  unfold sweepOrderStep
  split
  · rfl
  · split
    · rfl
    · rfl

/-- C4: one engine operation (submit, edit, cancel, or one sweep-order pass
with its trigger re-check, orphan cleanup and fill) moves an order's status
only along allowed transitions: the status either stays put or moves from an
unfilled status to its corresponding filled or cancelled status, so terminal
statuses never reopen and a filled order is never re-filled or later
cancelled.  The hypotheses state that pending orders carry the execution kind
matching their unfilled status (true of every order the engine builds) and
that the uuid resolves to a unique record before and after the step
(uuid-keyed storage); the claim's arbitrary operation sequences follow by
induction since `allowedTransition` is transitively closed. -/
theorem status_transitions_monotone (st : EngineState) (op : EngineOp)
    (u : String) (o o' : Order)
    (hcons : ∀ a ∈ st.pending,
      (a.src = OrderSource.LIMIT_UNFILLED → a.execution_type = ExecutionType.limit) ∧
      (a.src = OrderSource.BRACKET_UNFILLED → a.execution_type = ExecutionType.bracket))
    (hu : uuidUnique st u) (hu' : uuidUnique (engineStep st op) u)
    (ho : findOrderInState st u = some o)
    (ho' : findOrderInState (engineStep st op) u = some o') :
    allowedTransition o.src o'.src := by
  rcases op with ⟨sig, et, mx, ps, mo, pos, outc, ext, now⟩ |
    ⟨sig, mx, ps, mo, pos, outc, ext, now⟩ | ⟨cu, now⟩ |
    ⟨w, ps, pos, outc, ext, now⟩
  · -- submit
    simp only [engineStep] at hu' ho'
    rcases processLimitOrder_records st sig et false mx ps mo pos outc ext now u with
      ⟨hp, hc⟩ | ⟨huw, hc, hcase⟩
    · rw [same_records_same_order st _ u o o' hp hc ho ho']
      exact Or.inl rfl
    · rcases hcase with ⟨-, c, hp⟩ | ⟨habs, -⟩ | ⟨habs, -⟩
      · exfalso
        rw [uuidUnique_len] at hu'
        rw [hp, hc, List.length_append] at hu'
        have h3 := records_len_one st u o hu ho
        simp only [List.length_append, List.length_cons, List.length_nil] at hu'
        omega
      · exact absurd habs (by decide)
      · exact absurd habs (by decide)
  · -- edit
    simp only [engineStep] at hu' ho'
    rcases hex : getLimitOrderByUuid st sig.order_uuid with _ | existing
    · rw [hex] at hu' ho'
      have h2 : o' = o := (Option.some.inj (ho.symm.trans ho')).symm
      rw [h2]
      exact Or.inl rfl
    · rw [hex] at hu' ho'
      have hmem : existing ∈ st.pending := List.mem_of_find?_eq_some hex
      have hpred := List.find?_some hex
      simp only [Bool.and_eq_true, beq_iff_eq] at hpred
      obtain ⟨hexu, hexopen⟩ := hpred
      rcases processLimitOrder_records st sig
          (if existing.execution_type = ExecutionType.bracket then ExecutionType.bracket
           else ExecutionType.limit) true mx ps mo pos outc ext now u with
        ⟨hp, hc⟩ | ⟨huw, hc, hcase⟩
      · rw [same_records_same_order st _ u o o' hp hc ho ho']
        exact Or.inl rfl
      · rcases hcase with ⟨habs, -⟩ | ⟨-, c, hcsrc, hp⟩ | ⟨-, hp⟩
        · exact absurd habs (by decide)
        · rcases memRecords_singleton_split st u o
            (memRecords_eq_singleton st u o hu ho) with ⟨hP, hC⟩ | ⟨hP, hC⟩
          · have hexo : existing = o :=
              mem_pending_eq st u o existing hu ho hmem (hexu.trans huw.symm)
            rw [findOrderInState_eq_head] at ho'
            unfold memRecords at ho'
            rw [hp, hc, hP, hC] at ho'
            simp only [List.append_nil, List.head?_cons, Option.some.injEq] at ho'
            rcases is_open_cases existing.src hexopen with hL | hB
            · have hne : ¬(existing.execution_type = ExecutionType.bracket) := by
                rw [(hcons existing hmem).1 hL]
                exact fun hh => ExecutionType.noConfusion hh
              rw [if_neg hne,
                if_neg (show ¬(ExecutionType.limit = ExecutionType.bracket) by decide)]
                at hcsrc
              refine Or.inl ?_
              rw [← ho', hcsrc, ← hexo, hL]
            · have heq2 : existing.execution_type = ExecutionType.bracket :=
                (hcons existing hmem).2 hB
              rw [if_pos heq2, if_pos rfl] at hcsrc
              refine Or.inl ?_
              rw [← ho', hcsrc, ← hexo, hB]
          · rw [findOrderInState_eq_head] at ho'
            unfold memRecords at ho'
            rw [hp, hc, hP, hC] at ho'
            simp only [List.nil_append, List.head?_cons, Option.some.injEq] at ho'
            exact Or.inl (by rw [ho'])
        · rcases memRecords_singleton_split st u o
            (memRecords_eq_singleton st u o hu ho) with ⟨hP, hC⟩ | ⟨hP, hC⟩
          · rw [findOrderInState_eq_head] at ho'
            unfold memRecords at ho'
            rw [hp, hc, hP, hC] at ho'
            simp at ho'
          · rw [findOrderInState_eq_head] at ho'
            unfold memRecords at ho'
            rw [hp, hc, hP, hC] at ho'
            simp only [List.tail_nil, List.nil_append, List.head?_cons,
              Option.some.injEq] at ho'
            exact Or.inl (by rw [ho'])
  · -- cancel
    simp only [engineStep] at hu' ho'
    rcases hcl : cancelLimitOrder st cu now with m | ⟨st2, n⟩
    · rw [hcl] at hu' ho'
      have h2 : o' = o := (Option.some.inj (ho.symm.trans ho')).symm
      rw [h2]
      exact Or.inl rfl
    · rw [hcl] at hu' ho'
      simp only [cancelLimitOrder] at hcl
      split at hcl
      · exact Except.noConfusion hcl
      · have hst2 : cancelFold now
            (((parseCancelUuids cu).map
              (fun v => findOrdersToCancelByUuid st v)).flatten) st = st2 :=
          congrArg Prod.fst (Except.ok.inj hcl)
        set K := ((parseCancelUuids cu).map
          (fun v => findOrdersToCancelByUuid st v)).flatten with hKdef
        have hKprops : ∀ a ∈ K, a ∈ st.pending ∧
            (a.src = OrderSource.LIMIT_UNFILLED ∨
             a.src = OrderSource.BRACKET_UNFILLED) := by
          intro a ha
          rw [hKdef] at ha
          rcases List.mem_flatten.1 ha with ⟨l, hl, hal⟩
          rcases List.mem_map.1 hl with ⟨v, hv2, rfl⟩
          exact findOrdersToCancel_mem st v a hal
        obtain ⟨hp, hc⟩ := cancelFold_records now u K st
          (fun a ha => (hKprops a ha).2)
        rw [hst2] at hp hc
        rcases hKf : K.filter (fun q => q.order_uuid == u) with _ | ⟨t, ts⟩
        · rw [hKf, if_pos rfl] at hp
          rw [hKf] at hc
          simp only [List.map_nil, List.append_nil] at hc
          rw [same_records_same_order st st2 u o o' hp hc ho ho']
          exact Or.inl rfl
        · rw [hKf] at hp hc
          rw [if_neg (List.cons_ne_nil _ _)] at hp
          rw [uuidUnique_len] at hu'
          rw [hp, hc] at hu'
          simp only [List.length_append, List.length_nil, List.length_map,
            List.length_cons, Nat.zero_add] at hu'
          have hCnil : closedRecords st u = [] :=
            List.eq_nil_of_length_eq_zero (by omega)
          have htsnil : ts = [] := List.eq_nil_of_length_eq_zero (by omega)
          subst htsnil
          rw [findOrderInState_eq_head] at ho'
          unfold memRecords at ho'
          rw [hp, hc, hCnil] at ho'
          simp only [List.map_cons, List.map_nil, List.nil_append,
            List.head?_cons, Option.some.injEq] at ho'
          have htf : t ∈ K.filter (fun q => q.order_uuid == u) := by
            rw [hKf]
            exact List.mem_cons_self t []
          have htK : t ∈ K := (List.mem_filter.1 htf).1
          have htu : t.order_uuid = u := beq_iff_eq.1 (List.mem_filter.1 htf).2
          have hto : t = o := mem_pending_eq st u o t hu ho (hKprops t htK).1 htu
          rcases (hKprops t htK).2 with hL | hB
          · refine Or.inr (Or.inl ⟨?_, Or.inr ?_⟩)
            · rw [← hto]
              exact hL
            · rw [← ho', hL]
              rfl
          · refine Or.inr (Or.inr ⟨?_, Or.inr ?_⟩)
            · rw [← hto]
              exact hB
            · rw [← ho', hB]
              rfl
  · -- one sweep-order pass
    simp only [engineStep] at hu' ho'
    rcases hfind : st.pending.find? (fun q => q.order_uuid == w) with _ | o₀
    · rw [hfind] at hu' ho'
      have h2 : o' = o := (Option.some.inj (ho.symm.trans ho')).symm
      rw [h2]
      exact Or.inl rfl
    · rw [hfind] at hu' ho'
      have hmem : o₀ ∈ st.pending := List.mem_of_find?_eq_some hfind
      have hw' := List.find?_some hfind
      have hw : o₀.order_uuid = w := beq_iff_eq.1 hw'
      simp only [sweepStep_state] at hu' ho'
      by_cases hopen : o₀.src.is_open = true
      · have hnot : ¬((!o₀.src.is_open) = true) := by
          rw [hopen]
          decide
        rw [if_neg hnot] at hu' ho'
        by_cases horph : o₀.src = OrderSource.BRACKET_UNFILLED ∧ pos = none ∧
            getUnfilledOrders st o₀.trade_pair (some o₀.processed_ms) = []
        · rw [if_pos horph] at hu' ho'
          obtain ⟨hbr, -, -⟩ := horph
          rcases eq_or_ne u o₀.order_uuid with hequ | hnequ
          · rw [uuidUnique_len] at hu'
            rw [pendingRecords_close st o₀ OrderSource.BRACKET_CANCELLED now u
                (by decide),
              closedRecords_close st o₀ OrderSource.BRACKET_CANCELLED now u
                (by decide), if_pos hequ, if_pos hequ] at hu'
            simp only [List.length_nil, List.length_append, List.length_cons,
              Nat.zero_add] at hu'
            have hCnil : closedRecords st u = [] :=
              List.eq_nil_of_length_eq_zero (by omega)
            rw [findOrderInState_eq_head] at ho'
            unfold memRecords at ho'
            rw [pendingRecords_close st o₀ OrderSource.BRACKET_CANCELLED now u
                (by decide),
              closedRecords_close st o₀ OrderSource.BRACKET_CANCELLED now u
                (by decide), if_pos hequ, if_pos hequ, hCnil] at ho'
            simp only [List.nil_append, List.head?_cons, Option.some.injEq] at ho'
            have ho₀ : o₀ = o := mem_pending_eq st u o o₀ hu ho hmem hequ.symm
            refine Or.inr (Or.inr ⟨?_, Or.inr ?_⟩)
            · rw [← ho₀]
              exact hbr
            · rw [← ho']
          · rw [findOrderInState_eq_head] at ho ho'
            unfold memRecords at ho ho'
            rw [pendingRecords_close st o₀ OrderSource.BRACKET_CANCELLED now u
                (by decide),
              closedRecords_close st o₀ OrderSource.BRACKET_CANCELLED now u
                (by decide), if_neg hnequ, if_neg hnequ, List.append_nil] at ho'
            rw [ho] at ho'
            have h2 : o' = o := (Option.some.inj ho').symm
            rw [h2]
            exact Or.inl rfl
        · rw [if_neg horph] at hu' ho'
          have hfind2 : st.pending.find? (fun q => q.order_uuid == o₀.order_uuid)
              = some o₀ := by
            rw [hw]
            exact hfind
          simp only [attemptFillLimitOrder, hfind2] at hu' ho'
          rw [if_neg hnot] at hu' ho'
          rcases ps with _ | ⟨best, rest⟩
          · have h2 : o' = o := (Option.some.inj (ho.symm.trans ho')).symm
            rw [h2]
            exact Or.inl rfl
          · rcases htr2 : evaluateTriggerPrice o₀ pos best with _ | trig
            · simp only [htr2] at hu' ho'
              have h2 : o' = o := (Option.some.inj (ho.symm.trans ho')).symm
              rw [h2]
              exact Or.inl rfl
            · simp only [htr2] at hu' ho'
              refine fillRecords_transition _ st _ u o o'
                (fill_records st _ best (some trig) outc ext now u ?_)
                hu hu' ho ho' ?_
              · have h6 : ∀ z : Order, z.src = o₀.src →
                    (z.src = OrderSource.LIMIT_UNFILLED ∨
                     z.src = OrderSource.BRACKET_UNFILLED) := by
                  intro z hz
                  rw [hz]
                  exact is_open_cases o₀.src hopen
                apply h6
                split
                · split <;> rfl
                · rfl
              · intro hequ
                have hequ2 : u = o₀.order_uuid := by
                  rw [hequ]
                  split
                  · split <;> rfl
                  · rfl
                have ho₀o : o₀ = o := mem_pending_eq st u o o₀ hu ho hmem hequ2.symm
                rw [← ho₀o]
                split
                · split <;> rfl
                · rfl
      · have hopen2 : o₀.src.is_open = false := by
          simp only [Bool.not_eq_true] at hopen
          exact hopen
        have hnot2 : (!o₀.src.is_open) = true := by
          rw [hopen2]
          rfl
        rw [if_pos hnot2] at hu' ho'
        have h2 : o' = o := (Option.some.inj (ho.symm.trans ho')).symm
        rw [h2]
        exact Or.inl rfl

/-- C4 witness: a pending LIMIT_UNFILLED order swept with a confirmed trigger
whose market call fails moves to LIMIT_CANCELLED — an allowed transition —
with every hypothesis discharged at the concrete inputs. -/
theorem status_transitions_monotone_witness :
    (∀ a ∈ sampleState.pending,
      (a.src = OrderSource.LIMIT_UNFILLED → a.execution_type = ExecutionType.limit) ∧
      (a.src = OrderSource.BRACKET_UNFILLED →
        a.execution_type = ExecutionType.bracket)) ∧
    uuidUnique sampleState "A" ∧
    uuidUnique (engineStep sampleState sampleSweepOp) "A" ∧
    findOrderInState sampleState "A" = some sampleLimitOrder ∧
    findOrderInState (engineStep sampleState sampleSweepOp) "A"
      = some { sampleLimitOrder with
          src := OrderSource.LIMIT_CANCELLED, processed_ms := 3 } ∧
    allowedTransition sampleLimitOrder.src
      ({ sampleLimitOrder with
          src := OrderSource.LIMIT_CANCELLED, processed_ms := 3 } : Order).src :=
  ⟨by decide, by unfold uuidUnique; decide, by unfold uuidUnique; decide,
   by decide, by decide,
   status_transitions_monotone sampleState sampleSweepOp "A" sampleLimitOrder
     { sampleLimitOrder with
         src := OrderSource.LIMIT_CANCELLED, processed_ms := 3 }
     (by decide) (by unfold uuidUnique; decide) (by unfold uuidUnique; decide)
     (by decide) (by decide)⟩

end LimitOrderEngine
